import Mathlib

/-!
# buildd-mail-wrapper: queueing and activation

A shallow embedding of `src/src/buildd-mail-wrapper.c` (functions `main` and
`check_mailer_running`).  The file system, the process table, standard input
and every system call that can fail are explicit: the state of the machine is
a `World`, and the outcome of each fallible call that the program cannot
influence is read from an `Env`.
-/

namespace BuilddMailWrapper

/-! ## Bytes, directories, paths -/

/-- A C string or a file content: a sequence of bytes. -/
abbrev Bytes := List Char

/-- A directory: its entries other than `.` and `..`, each with its content. -/
abbrev Dir := List (Bytes × Bytes)

/-- The content of entry `n`, when it exists. -/
def Dir.get (d : Dir) (n : Bytes) : Option Bytes :=
  match d with
  | [] => none
  | (k, v) :: r => if k = n then some v else Dir.get r n

/-- The directory without entry `n`. -/
def Dir.del (d : Dir) (n : Bytes) : Dir :=
  match d with
  | [] => []
  | (k, v) :: r => if k = n then Dir.del r n else (k, v) :: Dir.del r n

/-- The directory with entry `n` holding `c` (created or replaced). -/
def Dir.put (d : Dir) (n c : Bytes) : Dir :=
  match d with
  | [] => [(n, c)]
  | (k, v) :: r => if k = n then (k, c) :: r else (k, v) :: Dir.put r n c

/-- One process the caller can address: its identifier, its process group and
whether the caller is permitted to signal it. -/
structure Proc where
  pid : Nat
  pgid : Nat
  permitted : Bool
deriving DecidableEq, Repr

/-- The process table seen by the running wrapper: the wrapper itself and every
other process. -/
structure Procs where
  selfPid : Nat
  selfPgid : Nat
  others : List Proc
deriving DecidableEq, Repr

/-- The result of `kill(pid, 0)`. -/
inductive KillRes
  | ok
  | ESRCH
  | EPERM
deriving DecidableEq, Repr

/-- Result of addressing a set of processes: success when one of them may be
signalled, `EPERM` when there are some but none may, `ESRCH` when there is none. -/
def killSet (ps : List Proc) : KillRes :=
  if ps.any (fun p => p.permitted) then KillRes.ok
  else if ps.isEmpty then KillRes.ESRCH else KillRes.EPERM

/-- The existence probe `kill(pid, 0)` after kill(2): a positive `pid` addresses
that process, `0` the caller's own process group (of which the caller is always
a member), `-1` every other process, and `pid < -1` the process group `-pid`. -/
def kill (t : Procs) (pid : Int) : KillRes :=
  if 0 < pid then
    if pid = t.selfPid then KillRes.ok
    else killSet (t.others.filter (fun p => (p.pid : Int) = pid))
  else if pid = 0 then KillRes.ok
  else if pid = -1 then killSet t.others
  else if (t.selfPgid : Int) = -pid then KillRes.ok
  else killSet (t.others.filter (fun p => (p.pgid : Int) = -pid))

/-- The machine state shared with the rest of the system: the regular files of
`$HOME`, the entries of `$HOME/mqueue`, and the process table. -/
structure World where
  home : Dir
  mqueue : Dir
  procs : Procs
deriving DecidableEq, Repr

/-- The working directory of the wrapper. -/
inductive Cwd
  | initial
  | home
  | mqueue
deriving DecidableEq, Repr

/-- The directories of the model. -/
inductive Where
  | home
  | mqueue
deriving DecidableEq, Repr

/-- The C string `"mqueue/"`. -/
def mqueueSlash : Bytes := "mqueue/".toList

/-- The C string `"mailer-running"`. -/
def markerName : Bytes := "mailer-running".toList

/-- Resolution of a relative path: a plain name lives in the working directory,
`mqueue/<name>` in the queue directory when the working directory is `$HOME`. -/
def resolve (cwd : Cwd) (path : Bytes) : Option (Where × Bytes) :=
  match cwd with
  | Cwd.initial => none
  | Cwd.home =>
    if mqueueSlash.isPrefixOf path then some (Where.mqueue, path.drop mqueueSlash.length)
    else some (Where.home, path)
  | Cwd.mqueue =>
    if mqueueSlash.isPrefixOf path then none else some (Where.mqueue, path)

/-- The directory `d` of the world. -/
def World.dir (w : World) (d : Where) : Dir :=
  match d with
  | Where.home => w.home
  | Where.mqueue => w.mqueue

/-- The world with directory `d` replaced. -/
def World.setDir (w : World) (d : Where) (x : Dir) : World :=
  match d with
  | Where.home => { w with home := x }
  | Where.mqueue => { w with mqueue := x }

/-- The call `stat(path)`: the size of the file, or failure. -/
def World.stat (w : World) (cwd : Cwd) (path : Bytes) : Option Nat :=
  match resolve cwd path with
  | none => none
  | some (d, n) => ((w.dir d).get n).map List.length

/-- The call `unlink(path)` (its result is never inspected by the program). -/
def World.unlink (w : World) (cwd : Cwd) (path : Bytes) : World :=
  match resolve cwd path with
  | none => w
  | some (d, n) => w.setDir d ((w.dir d).del n)

/-! ## C library functions used by the program -/

/-- Decimal digits of `n`, least significant first; `fuel` bounds their number. -/
def decRev : Nat → Nat → List Nat
  | 0, _ => []
  | fuel + 1, n => if n = 0 then [] else (n % 10) :: decRev fuel (n / 10)

/-- The character of a decimal digit. -/
def digitChar (d : Nat) : Char := Char.ofNat (48 + d)

/-- The conversions `%0<w>u` and `%0<w>d` of `sprintf` on a non-negative value:
the decimal digits, padded on the left with zeros up to width `w` (for `w ≥ 1`
the value `0` prints as `w` zeros). -/
def fmtZero (w n : Nat) : Bytes :=
  List.replicate (w - (decRev n n).length) '0' ++ ((decRev n n).reverse.map digitChar)

/-- The hidden name `.mail.%011u.%05d` that `sprintf` writes at `filename`. -/
def hiddenName (ts i : Nat) : Bytes :=
  ".mail.".toList ++ fmtZero 11 ts ++ ('.' :: fmtZero 5 i)

/-- The visible name `filename+1`: the hidden name without its leading dot. -/
def visibleName (ts i : Nat) : Bytes := (hiddenName ts i).tail

/-- The content of `long_filename` after `strcpy( filename, filename+1 )`. -/
def longName (ts i : Nat) : Bytes := mqueueSlash ++ visibleName ts i

/-- The C `isspace` in the C locale. -/
def isspace (c : Char) : Bool := c.toNat = 32 || (9 ≤ c.toNat && c.toNat ≤ 13)

/-- The C `isdigit`. -/
def isdigit (c : Char) : Bool := 48 ≤ c.toNat && c.toNat ≤ 57

/-- Value of the longest prefix of decimal digits, accumulated on `acc`. -/
def digitsValue (acc : Nat) : Bytes → Nat
  | [] => acc
  | c :: r => if isdigit c then digitsValue (acc * 10 + (c.toNat - 48)) r else acc

/-- The signed number read by `strtol(s, NULL, 10)` before range clamping:
optional white space, optional sign, decimal digits; `0` when there is no digit. -/
def parseLong (s : Bytes) : Int :=
  match s.dropWhile isspace with
  | [] => 0
  | c :: r =>
    if c = '-' then - (digitsValue 0 r : Int)
    else if c = '+' then (digitsValue 0 r : Int)
    else (digitsValue 0 (c :: r) : Int)

/-- Conversion of an integer to a 32-bit `int` (wrapping, as on two's complement). -/
def toInt32 (v : Int) : Int := (v + 2 ^ 31) % 2 ^ 32 - 2 ^ 31

/-- The call `atoi(s)` as `(int) strtol(s, NULL, 10)`: the parsed number is clamped
to the range of a 64-bit `long` and converted to `int`. -/
def atoi (s : Bytes) : Int :=
  toInt32 (max (-(2 ^ 63)) (min (2 ^ 63 - 1) (parseLong s)))

/-- The call `strrchr(s, c)`: the offset of the last occurrence of `c` in `s`. -/
def strrchr (s : Bytes) (c : Char) : Option Nat :=
  match s with
  | [] => none
  | x :: r =>
    match strrchr r c with
    | some i => some (i + 1)
    | none => if x = c then some 0 else none

/-- The constant `SI_LOAD_SHIFT` of `<linux/sysinfo.h>`. -/
def SI_LOAD_SHIFT : Nat := 16

/-- The assignment `waittime = (info.loads[0] >> (SI_LOAD_SHIFT-2))*6 + 20`: the
right-hand side is computed in `unsigned long` of `bits` bits and stored in an
`int`. -/
def waittime (bits : Nat) (load : Nat) : Int :=
  toInt32 ((((load % 2 ^ bits) >>> (SI_LOAD_SHIFT - 2)) * 6 + 20) % 2 ^ bits : Nat)

/-- The argument of `sleep`, an `unsigned int`, for an `int` value. -/
def toUInt32 (v : Int) : Nat := (v % 2 ^ 32).toNat

/-! ## Environment and machine state -/

/-- What one call `read( 0, buf, sizeof(buf) )` returns: the bytes stored in `buf`
(at most 4096 of them; none at end of stream), or the error value `-1`. -/
inductive ReadRes
  | data (c : Bytes)
  | fail
deriving DecidableEq, Repr

/-- Everything the run depends on that is neither the file system nor the process
table: the arguments, the clock, standard input, and the result of each system
call that may fail for reasons outside the model. -/
structure Env where
  /-- The value of `getenv("HOME")`. -/
  HOME : Option Bytes
  /-- The string `argv[0]`. -/
  argv0 : Bytes
  /-- The strings `argv[1]`, `argv[2]`, ... -/
  args : List Bytes
  /-- The value of `time(NULL)`. -/
  now : Nat
  /-- The results of the successive reads of standard input; after the last one
  the stream is at its end. -/
  stdin : List ReadRes
  /-- Whether `chdir( home )` succeeds. -/
  chdirHome : Bool
  /-- Whether `chdir( "mqueue" )` succeeds. -/
  chdirQueue : Bool
  /-- Whether `opendir( "." )` succeeds. -/
  opendir : Bool
  /-- Whether the exclusive create at disambiguator `i` fails for a reason other
  than `EEXIST` when the name is free. -/
  createErr : Nat → Bool
  /-- How many bytes the `k`-th `write` is able to store (`none`: all of them). -/
  writeCap : Nat → Option Nat
  /-- Whether `rename` succeeds. -/
  rename : Bool
  /-- Whether `chdir( ".." )` succeeds. -/
  chdirUp : Bool
  /-- Whether `open( "mailer-running", O_RDONLY )` succeeds in the `k`-th probe. -/
  markerOpen : Nat → Bool
  /-- Whether the `read` of the marker succeeds in the `k`-th probe. -/
  markerRead : Nat → Bool
  /-- The bytes found in the automatic array `buf` of `check_mailer_running` (and
  after it) when the `k`-th probe starts: the array is not initialised. -/
  stale : Nat → Bytes
  /-- The width of `unsigned long` in bits. -/
  ulongBits : Nat
  /-- The value `info.loads[0]` filled in by `sysinfo`. -/
  load : Nat
  /-- What the rest of the system does to the world while the wrapper sleeps. -/
  during : World → World
  /-- Whether `setreuid` succeeds. -/
  setreuid : Bool
  /-- Whether `fork` succeeds. -/
  fork : Bool
  /-- Whether `execv` succeeds in the child. -/
  execv : Bool

/-- The observable actions of a run, in the order in which they happen. -/
inductive Ev
  | diag
  | create (name : Bytes)
  | write (name : Bytes) (n : Nat)
  | close
  | rename (old new : Bytes)
  | unlink (path : Bytes)
  | kill (pid : Int)
  | sysinfo
  | sleep (seconds : Nat)
  | setreuid
  | umask
  | fork
  | execv (path : Bytes) (argv : List Bytes)
deriving DecidableEq, Repr

/-- The state of a run: the world, the working directory, the actions performed so
far and the successive states of the world that the run produced. -/
structure St where
  w : World
  cwd : Cwd
  trace : List Ev
  snaps : List World
deriving DecidableEq, Repr

/-- Record an action. -/
def St.log (st : St) (e : Ev) : St := { st with trace := st.trace ++ [e] }

/-- Install a new state of the world. -/
def St.setW (st : St) (w : World) : St := { st with w := w, snaps := st.snaps ++ [w] }

/-- The call `unlink( path )`. -/
def St.unlink (st : St) (path : Bytes) : St :=
  (st.log (Ev.unlink path)).setW (st.w.unlink st.cwd path)

/-- The verdict of the activation logic. -/
inductive Decision
  | spawn
  | skip
deriving DecidableEq, Repr

/-- How a run ends: the exit status of the wrapper, the exit status of the forked
child when its `execv` failed, the verdict when one was reached, and the state. -/
structure Outcome where
  status : Nat
  child : Option Nat
  decision : Option Decision
  st : St
deriving DecidableEq, Repr

/-- The call `exit( 1 )` before any verdict. -/
def exit1 (st : St) : Outcome :=
  { status := 1, child := none, decision := none, st := st }

/-- A diagnostic on the error stream followed by `exit( 1 )`. -/
def fatal (st : St) : Outcome := exit1 (st.log Ev.diag)

/-! ## The queue writer -/

/-- The test of the `readdir` loop: the entry is `.` or `..`. -/
def isDotEntry (d_name : Bytes) : Bool :=
  d_name.head? = some '.' &&
    (d_name.tail = [] || (d_name.tail.head? = some '.' && d_name.tail.tail = []))

/-- The entries that `readdir` returns for the queue directory. -/
def readdir (w : World) : List Bytes :=
  ".".toList :: "..".toList :: w.mqueue.map Prod.fst

/-- The loop that computes `dir_was_empty`. -/
def dirWasEmpty : List Bytes → Bool
  | [] => true
  | de :: rest => if isDotEntry de then dirWasEmpty rest else false

/-- The result of `open( filename, O_WRONLY|O_CREAT|O_EXCL, 0644 )`. -/
inductive OpenRes
  | ok (st : St)
  | eexist
  | error
deriving DecidableEq, Repr

/-- The exclusive create of the hidden name at disambiguator `i`, in the queue
directory. -/
def openExcl (env : Env) (st : St) (name : Bytes) (i : Nat) : OpenRes :=
  match st.w.mqueue.get name with
  | some _ => OpenRes.eexist
  | none =>
    if env.createErr i then OpenRes.error
    else OpenRes.ok ((st.log (Ev.create name)).setW { st.w with mqueue := st.w.mqueue.put name [] })

/-- How the name search ends. -/
inductive Search
  | created (i : Nat) (st : St)
  | failed (i : Nat) (st : St)
  | diverged
deriving DecidableEq, Repr

/-- The loop `while( stat( filename+1 ) == 0 || (open( filename, O_EXCL ) == -1 &&
errno == EEXIST) ) sprintf( p, "%05d", ++i )`, run for at most `fuel` iterations
from disambiguator `i`. -/
def search (env : Env) (ts : Nat) : Nat → Nat → St → Search
  | 0, _, _ => Search.diverged
  | fuel + 1, i, st =>
    if (st.w.stat Cwd.mqueue (visibleName ts i)).isSome then search env ts fuel (i + 1) st
    else
      match openExcl env st (hiddenName ts i) i with
      | OpenRes.eexist => search env ts fuel (i + 1) st
      | OpenRes.error => Search.failed i st
      | OpenRes.ok st1 => Search.created i st1

/-- The call `write( fd, buf, n )` on the file created under `name`: the bytes
stored and the state after them. -/
def writeChunk (env : Env) (k : Nat) (name c : Bytes) (st : St) : Nat × St :=
  let m := match env.writeCap k with
    | none => c.length
    | some cap => min cap c.length
  let old := (st.w.mqueue.get name).getD []
  (m, (st.log (Ev.write name m)).setW { st.w with mqueue := st.w.mqueue.put name (old ++ c.take m) })

/-- The loop that copies standard input to the new file, from the `k`-th write
on; `Except.error` is the fatal exit after the diagnostic, `close` and
`unlink( filename )`. -/
def copyStdin (env : Env) (name : Bytes) : List ReadRes → Nat → St → Except St St
  | [], _, st => Except.ok st
  | ReadRes.fail :: _, _, st => Except.error (((st.log Ev.diag).log Ev.close).unlink name)
  | ReadRes.data c :: rest, k, st =>
    if c.length = 0 then Except.ok st
    else
      let r := writeChunk env k name c st
      if r.1 ≠ c.length then Except.error (((r.2.log Ev.diag).log Ev.close).unlink name)
      else copyStdin env name rest (k + 1) r.2

/-- The call `rename( old, new )` inside the queue directory; `none` when it
fails. -/
def renameIn (env : Env) (st : St) (old new : Bytes) : Option St :=
  match st.w.mqueue.get old with
  | none => none
  | some c =>
    if env.rename then
      some ((st.log (Ev.rename old new)).setW
        { st.w with mqueue := (st.w.mqueue.del old).put new c })
    else none

/-- What the queue writer hands over: whether the directory was empty, the
timestamp and the disambiguator of the admitted message, and the state. -/
structure Admitted where
  dir_was_empty : Bool
  ts : Nat
  i : Nat
  st : St
deriving DecidableEq, Repr

/-- Lines 60-136 of `main`: from `getenv("HOME")` to the rename of the hidden file
to its visible name.  `Except.error` carries the run that ended before, or `none`
when the name search ran out of fuel. -/
def enqueue (env : Env) (w : World) : Except (Option Outcome) Admitted :=
  let st0 : St := { w := w, cwd := Cwd.initial, trace := [], snaps := [w] }
  match env.HOME with
  | none => Except.error (some (fatal st0))
  | some home =>
    if home = [] then Except.error (some (fatal st0))
    else if !env.chdirHome then Except.error (some (fatal st0))
    else
      let st1 := { st0 with cwd := Cwd.home }
      if !env.chdirQueue then Except.error (some (fatal st1))
      else
        let st2 := { st1 with cwd := Cwd.mqueue }
        if !env.opendir then Except.error (some (fatal st2))
        else
          let empty := dirWasEmpty (readdir st2.w)
          let ts := env.now % 2 ^ 32
          match search env ts (st2.w.mqueue.length + 1) 0 st2 with
          | Search.diverged => Except.error none
          | Search.failed _ st3 => Except.error (some (fatal st3))
          | Search.created i st3 =>
            match copyStdin env (hiddenName ts i) env.stdin 0 st3 with
            | Except.error st4 => Except.error (some (exit1 st4))
            | Except.ok st4 =>
              let st5 := st4.log Ev.close
              match renameIn env st5 (hiddenName ts i) (visibleName ts i) with
              | none =>
                Except.error (some (exit1 ((st5.log Ev.diag).unlink (hiddenName ts i))))
              | some st6 =>
                Except.ok { dir_was_empty := empty, ts := ts, i := i, st := st6 }

/-! ## The liveness probe -/

/-- How `check_mailer_running` ends: it returns `0` or `-1`, or calls `exit( 1 )`. -/
inductive Check
  | ret (v : Int) (st : St)
  | exit (st : St)
deriving DecidableEq, Repr

/-- The content of the file at `path`, when it can be opened. -/
def World.content (w : World) (cwd : Cwd) (path : Bytes) : Option Bytes :=
  match resolve cwd path with
  | none => none
  | some (d, n) => (w.dir d).get n

/-- The value `size_to_read = (sizeof(buf) < file_size) ? sizeof(buf) : file_size`
with `sizeof(buf) = 256`; the comparison is made in `size_t` (64 bits). -/
def sizeToRead (file_size : Int) : Nat :=
  if 256 < (file_size % 2 ^ 64).toNat then 256 else file_size.toNat

/-- The array `buf` after `read( fd, buf, size_to_read )` on a file holding
`content`: the first `n` bytes are those of the file, the others are what the
array held before (`n` is the number of bytes read). -/
def readInto (stale content : Bytes) (size_to_read : Nat) : Bytes :=
  content.take (min size_to_read content.length) ++
    stale.drop (min size_to_read content.length)

/-- The function `check_mailer_running`, as the `k`-th probe of the run.  The
array `buf` holds `env.stale k` on entry, and `atoi` parses from the start of the
array. -/
def check_mailer_running (env : Env) (k : Nat) (file_size : Int) (st : St) : Check :=
  match (if env.markerOpen k then st.w.content st.cwd markerName else none) with
  | none => Check.exit (st.log Ev.diag)
  | some content =>
    let size_to_read := sizeToRead file_size
    if !env.markerRead k then Check.exit (st.log Ev.diag)
    else
      let buf := readInto (env.stale k) content size_to_read
      let pid := atoi buf
      let st1 := st.log (Ev.kill pid)
      if kill st1.w.procs pid = KillRes.ESRCH then
        Check.ret (-1) (st1.unlink markerName)
      else Check.ret 0 st1

/-- The answer of the liveness probe. -/
inductive Liveness
  | running
  | notRunning
deriving DecidableEq, Repr

/-- The liveness probe of `main`, `if (stat( "mailer-running", &statbuf ) == 0)
{ if (check_mailer_running( statbuf.st_size ) == 0) return 0; }`, as the `k`-th
probe of the run: `Running` is the case that returns `0`, `Except.error` is the
`exit( 1 )` inside `check_mailer_running`. -/
def probe (env : Env) (k : Nat) (st : St) : Except St (Liveness × St) :=
  match st.w.stat st.cwd markerName with
  | none => Except.ok (Liveness.notRunning, st)
  | some size =>
    match check_mailer_running env k (toInt32 size) st with
    | Check.exit st1 => Except.error st1
    | Check.ret v st1 =>
      if v = 0 then Except.ok (Liveness.running, st1)
      else Except.ok (Liveness.notRunning, st1)

/-! ## The launcher and `main` -/

/-- The C string `"-wrapper"`. -/
def wrapperSuffix : Bytes := "-wrapper".toList

/-- The name of the program to start: `argv[0]` cut at its last `-`, provided what
starts there is `-wrapper`. -/
def daemonPath (argv0 : Bytes) : Option Bytes :=
  match strrchr argv0 '-' with
  | none => none
  | some k => if argv0.drop k ≠ wrapperSuffix then none else some (argv0.take k)

/-- The return `return 0` of a run that starts nothing. -/
def skip (st : St) : Outcome :=
  { status := 0, child := none, decision := some Decision.skip, st := st }

/-- Lines 180-216 of `main`: start the daemon. -/
def launch (env : Env) (long_filename : Bytes) (st : St) : Outcome :=
  let st1 := if env.setreuid then st.log Ev.setreuid else (st.log Ev.setreuid).log Ev.diag
  let st2 := st1.log Ev.umask
  match daemonPath env.argv0 with
  | none =>
    { status := 1, child := none, decision := some Decision.spawn,
      st := (st2.log Ev.diag).unlink long_filename }
  | some newname =>
    if !env.fork then
      { status := 1, child := none, decision := some Decision.spawn,
        st := ((st2.log Ev.fork).log Ev.diag).unlink long_filename }
    else
      let st3 := (st2.log Ev.fork).log (Ev.execv newname (env.argv0 :: env.args))
      if env.execv then
        { status := 0, child := none, decision := some Decision.spawn, st := st3 }
      else
        { status := 0, child := some 1, decision := some Decision.spawn,
          st := (st3.unlink long_filename).log Ev.diag }

/-- Lines 159-165 of `main`: the load sample, the computation of `waittime` and
the call `sleep( waittime )`, during which the rest of the system acts. -/
def backoff (env : Env) (st : St) : St :=
  let st2 := (st.log Ev.sysinfo).log (Ev.sleep (toUInt32 (waittime env.ulongBits env.load)))
  st2.setW (env.during st2.w)

/-- Lines 145-216 of `main`: the activation logic on an admitted message, entered
in the home directory. -/
def activate (env : Env) (a : Admitted) (st : St) : Outcome :=
  let long_filename := longName a.ts a.i
  match probe env 0 st with
  | Except.error st1 => exit1 st1
  | Except.ok (Liveness.running, st1) => skip st1
  | Except.ok (Liveness.notRunning, st1) =>
    if !a.dir_was_empty then
      match probe env 1 (backoff env st1) with
      | Except.error st4 => exit1 st4
      | Except.ok (Liveness.running, st4) => skip st4
      | Except.ok (Liveness.notRunning, st4) =>
        if (st4.w.stat st4.cwd long_filename).isNone then skip st4
        else launch env long_filename st4
    else launch env long_filename st1

/-- The function `main` of buildd-mail-wrapper; `none` only when the name search
ran out of fuel. -/
def main (env : Env) (w : World) : Option Outcome :=
  match enqueue env w with
  | Except.error o => o
  | Except.ok a =>
    if !env.chdirUp then
      some (exit1 ((a.st.log Ev.diag).unlink (visibleName a.ts a.i)))
    else some (activate env a { a.st with cwd := Cwd.home })

/-! ## Auxiliary definitions for the statements, and sample runs -/

/-- The actions of a successful admission: create, write, close and rename. -/
def Ev.isFileOp : Ev → Bool
  | Ev.create _ => true
  | Ev.write _ _ => true
  | Ev.close => true
  | Ev.rename _ _ => true
  | _ => false

/-- A state reached by the queue writer from the world `w` on its way to a
successful admission: the home directory and the process table are those of `w`,
the working directory is the queue directory and the only actions so far are
create, write, close and rename. -/
def St.Writing (st : St) (w : World) : Prop :=
  st.w.home = w.home ∧ st.w.procs = w.procs ∧ st.cwd = Cwd.mqueue ∧
    ∀ e ∈ st.trace, e.isFileOp = true

/-- The process identifier that the `k`-th probe passes to `kill` for a marker
holding `content`. -/
def probedPid (env : Env) (k : Nat) (content : Bytes) : Int :=
  atoi (readInto (env.stale k) content (sizeToRead (toInt32 content.length)))

/-- An environment in which no system call fails: the wrapper is started as
`/usr/bin/buildd-mail-wrapper` and reads `hello` from standard input; the array
`buf` of `check_mailer_running` holds zero bytes when a probe starts. -/
def helloEnv : Env :=
  { HOME := some "/home/buildd".toList,
    argv0 := "/usr/bin/buildd-mail-wrapper".toList,
    args := [],
    now := 1234567890,
    stdin := [ReadRes.data "hello".toList],
    chdirHome := true, chdirQueue := true, opendir := true,
    createErr := fun _ => false,
    writeCap := fun _ => none,
    rename := true, chdirUp := true,
    markerOpen := fun _ => true, markerRead := fun _ => true,
    stale := fun _ => [],
    ulongBits := 64, load := 3 * 2 ^ 16,
    during := fun w => w,
    setreuid := true, fork := true, execv := true }

/-- A process table with the wrapper as process 100 and a daemon as process 4711. -/
def someProcs : Procs :=
  { selfPid := 100, selfPgid := 100, others := [{ pid := 4711, pgid := 4711, permitted := true }] }

/-- A world with an empty queue directory and no marker. -/
def emptyWorld : World := { home := [], mqueue := [], procs := someProcs }

/-- A world with one older message in the queue and a marker holding `text`. -/
def markedWorld (text : Bytes) : World :=
  { home := [(markerName, text)],
    mqueue := [("mail.01234567000.00000".toList, "older".toList)],
    procs := someProcs }

/-- A world with one older message in the queue and no marker. -/
def backlogWorld : World :=
  { home := [],
    mqueue := [("mail.01234567000.00000".toList, "older".toList)],
    procs := someProcs }

/-- The message handed over by the queue writer in a run whose admission succeeds. -/
def admitted (env : Env) (w : World) : Admitted :=
  match enqueue env w with
  | Except.ok a => a
  | Except.error _ =>
    { dir_was_empty := true, ts := 0, i := 0,
      st := { w := w, cwd := Cwd.initial, trace := [], snaps := [] } }

/-- The state in which the `k`-th liveness probe leaves the run. -/
def probed (env : Env) (k : Nat) (st : St) : St :=
  match probe env k st with
  | Except.ok r => r.2
  | Except.error st1 => st1

/-- The state in which `main` makes its first liveness probe, in a run of `env`
from a world with one older message and a marker holding `text`. -/
def firstProbeState (env : Env) (text : Bytes) : St :=
  { (admitted env (markedWorld text)).st with cwd := Cwd.home }

/-- The environment `helloEnv`, except that the array `buf` of
`check_mailer_running` holds the bytes `xx11` followed by a line feed when the
probe starts. -/
def staleEnv : Env :=
  { helloEnv with stale := fun _ => ['x', 'x', '1', '1', Char.ofNat 10] }

/-- The load sample at which `waittime` reaches `2 ^ 31`: a load average of
357913938 / 4. -/
def hugeLoad : Nat := 357913938 * 2 ^ 14

/-- The launcher cannot start the daemon: `argv[0]` lacks `-wrapper`, `fork`
fails, or `execv` fails in the child. -/
def launchFails (env : Env) : Prop :=
  daemonPath env.argv0 = none ∨ env.fork = false ∨ env.execv = false

/-- The outcome of a run whose name search terminates. -/
def outcomeOf (env : Env) (w : World) : Outcome :=
  match main env w with
  | some o => o
  | none => exit1 { w := w, cwd := Cwd.initial, trace := [], snaps := [] }

/-- A later step of the run fails in a way after which the program unlinks the
message it admitted: `chdir( ".." )` fails, or the launcher is reached and
`argv[0]` lacks `-wrapper`, `fork` fails, or `execv` fails in the child. -/
def cleansUp (env : Env) (o : Outcome) : Prop :=
  env.chdirUp = false ∨ (o.decision = some Decision.spawn ∧ launchFails env)

/-- The only file a state reached from `st` has unlinked since is the marker, and
the queue directory is still that of `st`. -/
def St.Kept (st1 st : St) : Prop :=
  st1.cwd = Cwd.home ∧ st1.w.mqueue = st.w.mqueue ∧
    ∀ path, Ev.unlink path ∈ st1.trace → Ev.unlink path ∈ st.trace ∨ path = markerName

/-- A state in the home directory whose queue directory is `m` and in which the
run has unlinked no file but the marker. -/
def St.Holds (st : St) (m : Dir) : Prop :=
  st.cwd = Cwd.home ∧ st.w.mqueue = m ∧ ∀ path, Ev.unlink path ∈ st.trace → path = markerName

/-- The environment `helloEnv` with a failing `fork`. -/
def noForkEnv : Env := { helloEnv with fork := false }

/-- The environment `helloEnv` with an `execv` that fails in the child. -/
def noExecEnv : Env := { helloEnv with execv := false }

/-- The environment `helloEnv` with the program started as `/usr/bin/buildd-mail`. -/
def noSuffixEnv : Env := { helloEnv with argv0 := "/usr/bin/buildd-mail".toList }

/-- The environment `helloEnv` with a failing `chdir( ".." )`. -/
def noChdirEnv : Env := { helloEnv with chdirUp := false }

/-- The visible name `v` is absent from the queue directory of the state and was
absent in every state of the world the run went through. -/
def St.Unpublished (st : St) (v : Bytes) : Prop :=
  st.w.mqueue.get v = none ∧ ∀ s ∈ st.snaps, s.mqueue.get v = none

/-- The state in which the name search of `main` starts, in the queue directory. -/
def searchStart (w : World) : St := { w := w, cwd := Cwd.mqueue, trace := [], snaps := [w] }

/-- A queue directory in which, for the timestamp 1234567890, the visible name of
disambiguator 0 and the hidden name of disambiguator 1 exist. -/
def twoTakenWorld : World :=
  { home := [],
    mqueue := [("mail.01234567890.00000".toList, "first".toList),
               (".mail.01234567890.00001".toList, "sec".toList)],
    procs := someProcs }

/-- The environment `helloEnv` with `hello` delivered by two reads, `he` and `llo`. -/
def chunkedEnv : Env :=
  { helloEnv with stdin := [ReadRes.data "he".toList, ReadRes.data "llo".toList] }

/-! ## Concurrent admissions -/

/-- The next system call of a writer inside lines 99-136 of `main`. -/
inductive Pc
  /-- About to call `stat( filename+1 )` at disambiguator `i`. -/
  | stat (i : Nat)
  /-- The `stat` failed: about to call `open( filename, O_WRONLY|O_CREAT|O_EXCL )`. -/
  | openExcl (i : Nat)
  /-- The file is created: about to read the next chunk and write it (`k` writes
  were made, `rest` is what standard input still delivers). -/
  | copy (i : Nat) (rest : List ReadRes) (k : Nat)
  /-- About to call `close( fd )` after the end of the stream. -/
  | close (i : Nat)
  /-- About to call `rename( filename, filename+1 )`. -/
  | rename (i : Nat)
  /-- About to call `unlink( filename )` on the way to `exit( 1 )`. -/
  | cleanup (i : Nat)
  /-- The rename succeeded: the message is published as `mail.<timestamp>.<i>`. -/
  | published (i : Nat)
  /-- The writer exited with status 1. -/
  | exited
deriving DecidableEq, Repr

/-- One invocation of the wrapper inside its admission: its environment, its own
working directory and actions, and its next system call. -/
structure Writer where
  env : Env
  st : St
  pc : Pc

/-- A writer that has just computed `dir_was_empty` and starts its name search. -/
def Writer.start (env : Env) (w : World) : Writer :=
  { env := env, st := searchStart w, pc := Pc.stat 0 }

/-- One system call of a writer on the shared world `w`, made with the same
operations as the sequential program: the new shared world and the writer
after the call. -/
def Writer.step (w : World) (wr : Writer) : World × Writer :=
  let ts := wr.env.now % 2 ^ 32
  let st : St := { wr.st with w := w }
  match wr.pc with
  | Pc.stat i =>
    if (st.w.stat Cwd.mqueue (visibleName ts i)).isSome then (w, { wr with pc := Pc.stat (i + 1) })
    else (w, { wr with pc := Pc.openExcl i })
  | Pc.openExcl i =>
    match openExcl wr.env st (hiddenName ts i) i with
    | OpenRes.eexist => (w, { wr with pc := Pc.stat (i + 1) })
    | OpenRes.error => (w, { wr with st := st.log Ev.diag, pc := Pc.exited })
    | OpenRes.ok st1 => (st1.w, { wr with st := st1, pc := Pc.copy i wr.env.stdin 0 })
  | Pc.copy i rest k =>
    match rest with
    | [] => (w, { wr with pc := Pc.close i })
    | ReadRes.fail :: _ => (w, { wr with st := (st.log Ev.diag).log Ev.close, pc := Pc.cleanup i })
    | ReadRes.data c :: more =>
      if c.length = 0 then (w, { wr with pc := Pc.close i })
      else
        let r := writeChunk wr.env k (hiddenName ts i) c st
        if r.1 ≠ c.length then
          (r.2.w, { wr with st := (r.2.log Ev.diag).log Ev.close, pc := Pc.cleanup i })
        else (r.2.w, { wr with st := r.2, pc := Pc.copy i more (k + 1) })
  | Pc.close i => (w, { wr with st := st.log Ev.close, pc := Pc.rename i })
  | Pc.rename i =>
    match renameIn wr.env st (hiddenName ts i) (visibleName ts i) with
    | none => (w, { wr with st := st.log Ev.diag, pc := Pc.cleanup i })
    | some st1 => (st1.w, { wr with st := st1, pc := Pc.published i })
  | Pc.cleanup i =>
    ((st.unlink (hiddenName ts i)).w, { wr with st := st.unlink (hiddenName ts i), pc := Pc.exited })
  | Pc.published _ => (w, wr)
  | Pc.exited => (w, wr)

/-- The writers with the `n`-th one replaced. -/
def setWriter : List Writer → Nat → Writer → List Writer
  | [], _, _ => []
  | _ :: rest, 0, x => x :: rest
  | y :: rest, n + 1, x => y :: setWriter rest n x

/-- An interleaving: the schedule names, call after call, the writer that makes
its next system call on the shared world. -/
def runWriters : List Nat → World → List Writer → World × List Writer
  | [], w, ws => (w, ws)
  | n :: sched, w, ws =>
    match ws.get? n with
    | none => runWriters sched w ws
    | some wr =>
      let r := Writer.step w wr
      runWriters sched r.1 (setWriter ws n r.2)

/-- The environment of the first of two concurrent writers: its input is `first`. -/
def firstEnv : Env := { helloEnv with stdin := [ReadRes.data "first".toList] }

/-- The environment of the second writer, started in the same second: its input
is `second`. -/
def secondEnv : Env := { helloEnv with stdin := [ReadRes.data "second".toList] }

/-- The two writers at the start of their name searches on an empty queue. -/
def twoWriters : List Writer :=
  [Writer.start firstEnv emptyWorld, Writer.start secondEnv emptyWorld]

/-- The interleaving in which the second writer makes its `stat`, the first writer
then runs its whole admission, and the second writer continues with its `open`. -/
def overtaking : List Nat := [1, 0, 0, 0, 0, 0, 0, 1, 1, 1, 1, 1]

/-- The value of a list of decimal digits, least significant first. -/
def revVal : List Nat → Nat
  | [] => 0
  | d :: ds => d + 10 * revVal ds

/-- The disambiguator `j` is taken in the directory `q`: its visible or its hidden
name exists. -/
def taken (q : Dir) (ts j : Nat) : Prop :=
  (q.get (visibleName ts j)).isSome = true ∨ (q.get (hiddenName ts j)).isSome = true

/-- The decimal text of a positive number, as `printf("%d")` writes it. -/
def decimalText (p : Nat) : Bytes := (decRev p p).reverse.map digitChar

/-! ## rbuilder-wrapper -/

/-- The name `mail.%05d` that rbuilder-wrapper prints from `getpid()`. -/
def rbFilename (pid : Nat) : Bytes := "mail.".toList ++ fmtZero 5 pid

/-- The call `open( filename, O_WRONLY|O_CREAT|O_EXCL, 0644 )` of rbuilder-wrapper, in
the home directory; `none` when it fails for any reason. -/
def rbOpenExcl (env : Env) (st : St) (name : Bytes) : Option St :=
  match st.w.home.get name with
  | some _ => none
  | none =>
    if env.createErr 0 then none
    else some ((st.log (Ev.create name)).setW { st.w with home := st.w.home.put name [] })

/-- The call `write( fd, buf, n )` of rbuilder-wrapper on its file in the home
directory: the bytes stored and the state after them. -/
def rbWriteChunk (env : Env) (k : Nat) (name c : Bytes) (st : St) : Nat × St :=
  let m := match env.writeCap k with
    | none => c.length
    | some cap => min cap c.length
  let old := (st.w.home.get name).getD []
  (m, (st.log (Ev.write name m)).setW { st.w with home := st.w.home.put name (old ++ c.take m) })

/-- The copy loop of rbuilder-wrapper, from the `k`-th write on; `Except.error` is
the fatal exit after the diagnostic, `close` and `unlink( filename )`. -/
def rbCopyStdin (env : Env) (name : Bytes) : List ReadRes → Nat → St → Except St St
  | [], _, st => Except.ok st
  | ReadRes.fail :: _, _, st => Except.error (((st.log Ev.diag).log Ev.close).unlink name)
  | ReadRes.data c :: rest, k, st =>
    if c.length = 0 then Except.ok st
    else
      let r := rbWriteChunk env k name c st
      if r.1 ≠ c.length then Except.error (((r.2.log Ev.diag).log Ev.close).unlink name)
      else rbCopyStdin env name rest (k + 1) r.2

/-- Lines 52-85 of rbuilder-wrapper's `main`: start rbuilder with the name of the
file as its argument, `execl( newname, newname, filename, NULL )`. -/
def rbLaunch (env : Env) (filename : Bytes) (st : St) : Outcome :=
  let st1 := if env.setreuid then st.log Ev.setreuid else (st.log Ev.setreuid).log Ev.diag
  let st2 := st1.log Ev.umask
  match daemonPath env.argv0 with
  | none =>
    { status := 1, child := none, decision := none,
      st := (st2.log Ev.diag).unlink filename }
  | some newname =>
    if !env.fork then
      { status := 1, child := none, decision := none,
        st := ((st2.log Ev.fork).log Ev.diag).unlink filename }
    else
      let st3 := (st2.log Ev.fork).log (Ev.execv newname [newname, filename])
      if env.execv then
        { status := 0, child := none, decision := none, st := st3 }
      else
        { status := 0, child := some 1, decision := none,
          st := (st3.unlink filename).log Ev.diag }

/-- The function `main` of rbuilder-wrapper (it has no activation logic, so its
outcomes carry no verdict). -/
def rbuilderMain (env : Env) (w : World) : Outcome :=
  let st0 : St := { w := w, cwd := Cwd.initial, trace := [], snaps := [w] }
  match env.HOME with
  | none => fatal st0
  | some home =>
    if home = [] then fatal st0
    else if !env.chdirHome then fatal st0
    else
      let st1 := { st0 with cwd := Cwd.home }
      let filename := rbFilename st1.w.procs.selfPid
      match rbOpenExcl env st1 filename with
      | none => fatal st1
      | some st2 =>
        match rbCopyStdin env filename env.stdin 0 st2 with
        | Except.error st3 => exit1 st3
        | Except.ok st3 => rbLaunch env filename (st3.log Ev.close)

/-- The steps of `main` before the name search succeed: `HOME` is set and not empty,
both `chdir` calls and `opendir` succeed. -/
def preamble (env : Env) : Bool :=
  (match env.HOME with
    | none => false
    | some home => !(home == [])) && env.chdirHome && env.chdirQueue && env.opendir

/-- The actions of the launcher that start a process: `fork` and `execv`. -/
def Ev.isLaunch : Ev → Bool
  | Ev.fork => true
  | Ev.execv _ _ => true
  | _ => false

/-- A state in the home directory in which the run has neither forked nor
executed anything. -/
def St.Unlaunched (st : St) : Prop :=
  st.cwd = Cwd.home ∧ ∀ e ∈ st.trace, e.isLaunch = false

/-- The number of bytes that the `k`-th `write` stores of the chunk `c`. -/
def stored (env : Env) (k : Nat) (c : Bytes) : Nat :=
  match env.writeCap k with
  | none => c.length
  | some cap => min cap c.length

/-- Before the end of the stream a read from standard input fails, or a write
stores less than its whole chunk (`k` writes were made before). -/
def copyFails (env : Env) : List ReadRes → Nat → Bool
  | [], _ => false
  | ReadRes.fail :: _, _ => true
  | ReadRes.data c :: rest, k =>
    if c.length = 0 then false
    else if stored env k c ≠ c.length then true
    else copyFails env rest (k + 1)

/-- The actions of an admission, successful or not: file operations and
diagnostics. -/
def Ev.isAdmission : Ev → Bool
  | Ev.diag => true
  | Ev.create _ => true
  | Ev.write _ _ => true
  | Ev.close => true
  | Ev.rename _ _ => true
  | Ev.unlink _ => true
  | _ => false

/-- Every state of the world in `snaps` is `w` itself or `w` with the one
additional entry `name` in the queue directory. -/
def OnlyAdds (snaps : List World) (w : World) (name : Bytes) : Prop :=
  ∀ s ∈ snaps, s = w ∨ ∃ acc, s = { w with mqueue := w.mqueue.put name acc }

/-- A state of the copy loop for the hidden file `name`, started from the world
`w`: the world is `w` with the additional entry `name`, and the run has made only
file operations. -/
def St.Filling (st : St) (w : World) (name : Bytes) : Prop :=
  st.cwd = Cwd.mqueue ∧ (∃ acc, st.w = { w with mqueue := w.mqueue.put name acc }) ∧
    OnlyAdds st.snaps w name ∧ ∀ e ∈ st.trace, e.isAdmission = true

/-- A state after the clean-up of a failed admission from the world `w`: the world
is `w` again, `name` was unlinked, and the run has made only file operations. -/
def St.Cleaned (st : St) (w : World) (name : Bytes) : Prop :=
  st.w = w ∧ OnlyAdds st.snaps w name ∧ Ev.unlink name ∈ st.trace ∧
    ∀ e ∈ st.trace, e.isAdmission = true

/-- The state after the exclusive create of `.mail.<ts>.<i>` at the start of the
name search in the world `w`. -/
def createdState (w : World) (ts i : Nat) : St :=
  ((searchStart w).log (Ev.create (hiddenName ts i))).setW
    { w with mqueue := w.mqueue.put (hiddenName ts i) [] }

/-- The environment `helloEnv` with a standard input that delivers `he` and then
fails. -/
def readFailEnv : Env := { helloEnv with stdin := [ReadRes.data "he".toList, ReadRes.fail] }

/-! ## Runs that differ in the home directory -/

/-- The world with the home directory replaced by `h`. -/
def World.withHome (w : World) (h : Dir) : World := { w with home := h }

/-- The state of a run in which every state of the world has the home directory
`h` instead of its own. -/
def St.withHome (st : St) (h : Dir) : St :=
  { w := st.w.withHome h, cwd := st.cwd, trace := st.trace,
    snaps := st.snaps.map (fun s => s.withHome h) }

/-- The outcome of a run in which every state of the world has the home directory
`h` instead of its own. -/
def Outcome.withHome (o : Outcome) (h : Dir) : Outcome := { o with st := o.st.withHome h }

/-- What a run ends with as far as its caller can tell: the exit status, the
verdict, and the exit status of the child when its `execv` failed. -/
def Outcome.verdict (o : Outcome) : Nat × Option Decision × Option Nat :=
  (o.status, o.decision, o.child)

/-- What the rest of a run depends on in a state: the world and the working
directory (not the record of what was done so far). -/
def St.place (st : St) : World × Cwd := (st.w, st.cwd)

/-- The answer of a liveness probe and the world and working directory it leaves. -/
def placeOf : Except St (Liveness × St) → Except (World × Cwd) (Liveness × (World × Cwd))
  | Except.ok r => Except.ok (r.1, r.2.place)
  | Except.error s => Except.error s.place

/-- What a run ends with: its verdict and the world it leaves. -/
def Outcome.result (o : Outcome) : (Nat × Option Decision × Option Nat) × World :=
  (o.verdict, o.st.w)

/-- Lines 158-216 of `main`: what the activation logic does after a first probe
that answered NotRunning in the state `st1`. -/
def recheck (env : Env) (a : Admitted) (st1 : St) : Outcome :=
  if !a.dir_was_empty then
    match probe env 1 (backoff env st1) with
    | Except.error st4 => exit1 st4
    | Except.ok (Liveness.running, st4) => skip st4
    | Except.ok (Liveness.notRunning, st4) =>
      if (st4.w.stat st4.cwd (longName a.ts a.i)).isNone then skip st4
      else launch env (longName a.ts a.i) st4
  else launch env (longName a.ts a.i) st1

/-- The world `w` with the marker file holding `text` added to its home
directory. -/
def World.withMarker (w : World) (text : Bytes) : World :=
  w.withHome (w.home.put markerName text)

/-- The nine bytes `999999999`, the number of no process in `someProcs`. -/
def deadPidText : Bytes := "999999999".toList

/-- The environment `helloEnv`, except that `open( "mailer-running", O_RDONLY )`
fails. -/
def unreadableEnv : Env := { helloEnv with markerOpen := fun _ => false }

/-! # Theorems -/

/-! ## Basic facts about directories and paths -/

/-- An entry just written is found with the content written. -/
theorem Dir.get_put_same (d : Dir) (n c : Bytes) : (d.put n c).get n = some c := by
  induction d with
  | nil => simp [Dir.put, Dir.get]
  | cons e r ih =>
    obtain ⟨k, v⟩ := e
    by_cases h : k = n
    · simp [Dir.put, Dir.get, h]
    · simp [Dir.put, Dir.get, h, ih]

/-- Writing an entry leaves every other entry as it was. -/
theorem Dir.get_put_other (d : Dir) (n m c : Bytes) (h : m ≠ n) :
    (d.put n c).get m = d.get m := by
  induction d with
  | nil => simp [Dir.put, Dir.get, Ne.symm h]
  | cons e r ih =>
    obtain ⟨k, v⟩ := e
    by_cases hk : k = n
    · subst hk
      simp [Dir.put, Dir.get, Ne.symm h]
    · by_cases hm : k = m
      · subst hm
        simp [Dir.put, Dir.get, hk]
      · simp [Dir.put, Dir.get, hk, hm, ih]

/-- A removed entry is no longer found. -/
theorem Dir.get_del_same (d : Dir) (n : Bytes) : (d.del n).get n = none := by
  induction d with
  | nil => simp [Dir.del, Dir.get]
  | cons e r ih =>
    obtain ⟨k, v⟩ := e
    by_cases h : k = n
    · simp [Dir.del, h, ih]
    · simp [Dir.del, Dir.get, h, ih]

/-- Removing an entry leaves every other entry as it was. -/
theorem Dir.get_del_other (d : Dir) (n m : Bytes) (h : m ≠ n) :
    (d.del n).get m = d.get m := by
  induction d with
  | nil => simp [Dir.del, Dir.get]
  | cons e r ih =>
    obtain ⟨k, v⟩ := e
    by_cases hk : k = n
    · subst hk
      simp [Dir.del, Dir.get, Ne.symm h, ih]
    · by_cases hm : k = m
      · subst hm
        simp [Dir.del, Dir.get, hk]
      · simp [Dir.del, Dir.get, hk, hm, ih]

/-- Removing an entry that does not exist changes nothing. -/
theorem Dir.del_of_get_none (d : Dir) (n : Bytes) (h : d.get n = none) : d.del n = d := by
  induction d with
  | nil => simp [Dir.del]
  | cons e r ih =>
    obtain ⟨k, v⟩ := e
    by_cases hk : k = n
    · simp [Dir.get, hk] at h
    · simp [Dir.get, hk] at h
      simp [Dir.del, hk, ih h]

/-- In the home directory `mailer-running` names a file of the home directory. -/
theorem resolve_marker_home : resolve Cwd.home markerName = some (Where.home, markerName) := by
  decide

/-- In the home directory `long_filename` names the visible file in the queue
directory. -/
theorem resolve_longName (ts i : Nat) :
    resolve Cwd.home (longName ts i) = some (Where.mqueue, visibleName ts i) := by
  have h : mqueueSlash.isPrefixOf (longName ts i) = true := by
    simp [longName]
  simp [resolve, h]
  simp [longName]

/-- The hidden name is the visible name behind a dot. -/
theorem hiddenName_eq (ts i : Nat) : hiddenName ts i = '.' :: visibleName ts i := by
  simp [hiddenName, visibleName]

/-- A visible name starts with `ma`. -/
theorem visibleName_head (ts i : Nat) : ∃ r, visibleName ts i = 'm' :: 'a' :: r := by
  simp [hiddenName, visibleName]

/-- No hidden name is a visible name. -/
theorem hidden_ne_visible (ts i tv j : Nat) : hiddenName ts i ≠ visibleName tv j := by
  obtain ⟨r, hr⟩ := visibleName_head tv j
  rw [hiddenName_eq, hr]
  simp

/-- In the queue directory a visible name names an entry of that directory. -/
theorem resolve_visible_mqueue (ts i : Nat) :
    resolve Cwd.mqueue (visibleName ts i) = some (Where.mqueue, visibleName ts i) := by
  obtain ⟨r, hr⟩ := visibleName_head ts i
  rw [hr]
  simp [resolve, mqueueSlash, List.isPrefixOf]

/-! ## The queue writer touches only the queue directory -/

/-- The state after a successful name search: the hidden file was created empty. -/
theorem search_cases (env : Env) (ts : Nat) (fuel i : Nat) (st : St) (n : Nat) (st1 : St)
    (h : search env ts fuel i st = Search.created n st1) :
    st1 = (st.log (Ev.create (hiddenName ts n))).setW
      { st.w with mqueue := st.w.mqueue.put (hiddenName ts n) [] } := by
  induction fuel generalizing i with
  | zero => simp [search] at h
  | succ f ih =>
    rw [search] at h
    split at h
    · exact ih _ h
    · split at h
      · exact ih _ h
      · simp at h
      · rename_i st2 hopen
        simp only [Search.created.injEq] at h
        obtain ⟨h1, h2⟩ := h
        subst h1
        subst h2
        unfold openExcl at hopen
        split at hopen
        · simp at hopen
        · split at hopen
          · simp at hopen
          · simp only [OpenRes.ok.injEq] at hopen
            exact hopen.symm

/-- A successful name search keeps the run on its way to an admission. -/
theorem search_writing (env : Env) (ts : Nat) (fuel i : Nat) (st : St) (n : Nat) (st1 : St)
    (w : World) (hw : st.Writing w)
    (h : search env ts fuel i st = Search.created n st1) : st1.Writing w := by
  have := search_cases env ts fuel i st n st1 h
  subst this
  obtain ⟨h1, h2, h3, h4⟩ := hw
  refine ⟨h1, h2, h3, ?_⟩
  intro e he
  simp only [St.setW, St.log, List.mem_append, List.mem_singleton] at he
  rcases he with he | he
  · exact h4 e he
  · subst he
    rfl

/-- A successful copy loop keeps the run on its way to an admission. -/
theorem copyStdin_writing (env : Env) (name : Bytes) (rs : List ReadRes) (k : Nat)
    (st st1 : St) (w : World) (hw : st.Writing w)
    (h : copyStdin env name rs k st = Except.ok st1) : st1.Writing w := by
  induction rs generalizing k st with
  | nil =>
    simp only [copyStdin, Except.ok.injEq] at h
    exact h ▸ hw
  | cons r rest ih =>
    cases r with
    | fail => simp [copyStdin] at h
    | data c =>
      rw [copyStdin] at h
      split at h
      · simp only [Except.ok.injEq] at h
        exact h ▸ hw
      · dsimp only at h
        split at h
        · simp at h
        · refine ih _ _ ?_ h
          obtain ⟨h1, h2, h3, h4⟩ := hw
          refine ⟨h1, h2, h3, ?_⟩
          intro e he
          simp only [writeChunk, St.setW, St.log, List.mem_append, List.mem_singleton] at he
          rcases he with he | he
          · exact h4 e he
          · subst he
            rfl

/-- The state after a successful rename. -/
theorem renameIn_cases (env : Env) (st st1 : St) (old new : Bytes)
    (h : renameIn env st old new = some st1) :
    ∃ c, st.w.mqueue.get old = some c ∧ env.rename = true ∧
      st1 = (st.log (Ev.rename old new)).setW
        { st.w with mqueue := (st.w.mqueue.del old).put new c } := by
  unfold renameIn at h
  split at h
  · simp at h
  · rename_i c hc
    split at h
    · rename_i hr
      simp only [Option.some.injEq] at h
      exact ⟨c, hc, hr, h.symm⟩
    · simp at h

/-- What a successful admission went through: the name search created the hidden
file, the copy loop reached the end of the stream, and the rename succeeded. -/
theorem enqueue_cases (env : Env) (w : World) (a : Admitted) (h : enqueue env w = Except.ok a) :
    ∃ st3 st4 : St,
      a.dir_was_empty = dirWasEmpty (readdir w) ∧ a.ts = env.now % 2 ^ 32 ∧
      search env a.ts (w.mqueue.length + 1) 0
        { w := w, cwd := Cwd.mqueue, trace := [], snaps := [w] } = Search.created a.i st3 ∧
      copyStdin env (hiddenName a.ts a.i) env.stdin 0 st3 = Except.ok st4 ∧
      renameIn env (st4.log Ev.close) (hiddenName a.ts a.i) (visibleName a.ts a.i)
        = some a.st := by
  unfold enqueue at h
  split at h
  · simp at h
  · split at h
    · simp at h
    · split at h
      · simp at h
      · split at h
        · simp at h
        · split at h
          · simp at h
          · simp only at h
            split at h
            · simp at h
            · simp at h
            · rename_i i st3 hs
              split at h
              · simp at h
              · rename_i st4 hc
                split at h
                · simp at h
                · rename_i st6 hr
                  simp only [Except.ok.injEq] at h
                  subst h
                  exact ⟨st3, st4, rfl, rfl, hs, hc, hr⟩

/-- A successful admission changed nothing but the queue directory and performed
only create, write, close and rename. -/
theorem enqueue_writing (env : Env) (w : World) (a : Admitted) (h : enqueue env w = Except.ok a) :
    a.st.Writing w := by
  obtain ⟨st3, st4, -, -, hs, hc, hr⟩ := enqueue_cases env w a h
  have h3 : st3.Writing w := by
    refine search_writing env _ _ _ _ _ _ w ?_ hs
    exact ⟨rfl, rfl, rfl, by simp⟩
  have h4 : st4.Writing w := copyStdin_writing env _ _ _ _ _ w h3 hc
  obtain ⟨c, -, -, h6⟩ := renameIn_cases env _ _ _ _ hr
  obtain ⟨h1, h2, h3, h4⟩ := h4
  unfold St.Writing
  rw [h6]
  refine ⟨h1, h2, h3, ?_⟩
  intro e he
  simp only [St.setW, St.log, List.mem_append, List.mem_singleton] at he
  rcases he with (he | he) | he
  · exact h4 e he
  · subst he
    rfl
  · subst he
    rfl

/-- After a successful admission the visible name exists in the queue directory. -/
theorem enqueue_visible (env : Env) (w : World) (a : Admitted) (h : enqueue env w = Except.ok a) :
    (a.st.w.mqueue.get (visibleName a.ts a.i)).isSome = true := by
  obtain ⟨st3, st4, -, -, -, -, hr⟩ := enqueue_cases env w a h
  obtain ⟨c, -, -, h6⟩ := renameIn_cases env _ _ _ _ hr
  rw [h6]
  simp [St.setW, Dir.get_put_same]

/-! ## The liveness probe, case by case -/

/-- The three ways in which the liveness probe answers. -/
theorem probe_cases (env : Env) (k : Nat) (st st1 : St) (l : Liveness)
    (h : probe env k st = Except.ok (l, st1)) :
    (st.w.content st.cwd markerName = none ∧ l = Liveness.notRunning ∧ st1 = st) ∨
    (∃ content, st.w.content st.cwd markerName = some content ∧
      kill st.w.procs (probedPid env k content) ≠ KillRes.ESRCH ∧
      l = Liveness.running ∧ st1 = st.log (Ev.kill (probedPid env k content))) ∨
    (∃ content, st.w.content st.cwd markerName = some content ∧
      kill st.w.procs (probedPid env k content) = KillRes.ESRCH ∧
      l = Liveness.notRunning ∧
      st1 = (st.log (Ev.kill (probedPid env k content))).unlink markerName) := by
  unfold probe at h
  unfold World.stat at h
  unfold World.content
  cases hres : resolve st.cwd markerName with
  | none =>
    simp only [hres, Except.ok.injEq, Prod.mk.injEq] at h
    exact Or.inl ⟨rfl, h.1.symm, h.2.symm⟩
  | some dn =>
    obtain ⟨d, n⟩ := dn
    simp only [hres] at h
    cases hget : (st.w.dir d).get n with
    | none =>
      simp only [hget, Option.map_none', Except.ok.injEq, Prod.mk.injEq] at h
      exact Or.inl ⟨hget, h.1.symm, h.2.symm⟩
    | some content =>
      right
      simp only [hget, Option.map_some', check_mailer_running, World.content, hres] at h
      by_cases ho : env.markerOpen k = true
      · by_cases hr : env.markerRead k = true
        · simp only [ho, hr, if_true, Bool.not_true, Bool.false_eq_true, if_false] at h
          by_cases hk : kill st.w.procs (probedPid env k content) = KillRes.ESRCH
          · right
            refine ⟨content, hget, hk, ?_⟩
            simp only [probedPid] at hk
            simp only [St.log, hk, if_true] at h
            rw [if_neg (by decide)] at h
            simp only [Except.ok.injEq, Prod.mk.injEq] at h
            exact ⟨h.1.symm, h.2.symm⟩
          · left
            refine ⟨content, hget, hk, ?_⟩
            simp only [probedPid] at hk
            simp only [St.log, hk, if_false] at h
            rw [if_pos trivial] at h
            simp only [Except.ok.injEq, Prod.mk.injEq] at h
            exact ⟨h.1.symm, h.2.symm⟩
        · simp [ho, hr] at h
      · simp [ho] at h

/-- The probe answers Running exactly when the marker exists, can be opened and
read, and `kill` does not report `ESRCH` for the number parsed; the run has then
made that one `kill` and nothing else. -/
theorem probe_running_iff (env : Env) (k : Nat) (st st1 : St) (hcwd : st.cwd = Cwd.home) :
    probe env k st = Except.ok (Liveness.running, st1) ↔
      ∃ content, st.w.home.get markerName = some content ∧ env.markerOpen k = true ∧
        env.markerRead k = true ∧
        kill st.w.procs (probedPid env k content) ≠ KillRes.ESRCH ∧
        st1 = st.log (Ev.kill (probedPid env k content)) := by
  constructor
  · intro h
    have hor : env.markerOpen k = true ∧ env.markerRead k = true := by
      unfold probe at h
      split at h
      · simp at h
      · split at h
        · simp at h
        · rename_i v st2 hc
          unfold check_mailer_running at hc
          by_cases ho : env.markerOpen k = true
          · by_cases hr : env.markerRead k = true
            · exact ⟨ho, hr⟩
            · simp only [ho, if_true, hr] at hc
              split at hc <;> simp at hc
          · simp [ho] at hc
    rcases probe_cases env k st st1 _ h with ⟨-, h1, -⟩ | ⟨c, hc, hk, -, h1⟩ | ⟨c, -, -, h1, -⟩
    · exact absurd h1 (by decide)
    · refine ⟨c, ?_, hor.1, hor.2, hk, h1⟩
      simpa [World.content, hcwd, resolve_marker_home, World.dir] using hc
    · exact absurd h1 (by decide)
  · rintro ⟨content, hm, ho, hr, hk, h1⟩
    subst h1
    unfold probedPid at hk
    simp only [probe, World.stat, hcwd, resolve_marker_home, World.dir, hm, Option.map_some',
      check_mailer_running, World.content, ho, hr, if_true, Bool.not_true,
      Bool.false_eq_true, if_false, St.log, hk, probedPid]

/-- The liveness probe never changes the queue directory or the process table. -/
theorem probe_frame (env : Env) (k : Nat) (st st1 : St) (l : Liveness)
    (hcwd : st.cwd = Cwd.home) (h : probe env k st = Except.ok (l, st1)) :
    st1.w.mqueue = st.w.mqueue ∧ st1.w.procs = st.w.procs ∧ st1.cwd = Cwd.home := by
  rcases probe_cases env k st st1 l h with ⟨-, -, h1⟩ | ⟨c, -, -, -, h1⟩ | ⟨c, -, -, -, h1⟩
  · subst h1
    exact ⟨rfl, rfl, hcwd⟩
  · subst h1
    exact ⟨rfl, rfl, hcwd⟩
  · subst h1
    simp [St.unlink, St.setW, St.log, World.unlink, hcwd, resolve_marker_home, World.setDir]

/-! ## What each stage reads from the environment -/

/-- The name search reads nothing from the environment but `createErr`. -/
theorem search_env (env env1 : Env) (h : env1.createErr = env.createErr) (ts fuel i : Nat)
    (st : St) : search env1 ts fuel i st = search env ts fuel i st := by
  induction fuel generalizing i with
  | zero => rfl
  | succ f ih =>
    simp only [search, ih, openExcl, h]

/-- The copy loop reads nothing from the environment but `writeCap`. -/
theorem copyStdin_env (env env1 : Env) (h : env1.writeCap = env.writeCap) (name : Bytes)
    (rs : List ReadRes) (k : Nat) (st : St) :
    copyStdin env1 name rs k st = copyStdin env name rs k st := by
  induction rs generalizing k st with
  | nil => rfl
  | cons r rest ih =>
    cases r with
    | fail => rfl
    | data c =>
      rw [copyStdin, copyStdin]
      simp only [writeChunk, h, ih]

/-- The queue writer does not depend on the load sample, on the width of
`unsigned long` or on what happens during a later sleep. -/
theorem enqueue_env (env : Env) (bits load : Nat) (during : World → World) (w : World) :
    enqueue { env with ulongBits := bits, load := load, during := during } w = enqueue env w := by
  unfold enqueue
  simp only [search_env { env with ulongBits := bits, load := load, during := during } env rfl,
    copyStdin_env { env with ulongBits := bits, load := load, during := during } env rfl,
    renameIn]

/-- The launcher does not depend on the load sample, on the width of
`unsigned long` or on what happens during a sleep. -/
theorem launch_env (env : Env) (bits load : Nat) (during : World → World) (long : Bytes)
    (st : St) :
    launch { env with ulongBits := bits, load := load, during := during } long st
      = launch env long st := rfl

/-- Reaching the launcher is the verdict Spawn. -/
theorem launch_decision (env : Env) (long : Bytes) (st : St) :
    (launch env long st).decision = some Decision.spawn := by
  unfold launch
  cases h2 : daemonPath env.argv0 <;> by_cases h3 : env.fork = true <;>
    by_cases h4 : env.execv = true <;> simp [h3, h4]

/-- The launcher takes no load sample and does not sleep. -/
theorem launch_trace (env : Env) (long : Bytes) (st : St) (e : Ev)
    (he : e ∈ (launch env long st).st.trace) :
    e ∈ st.trace ∨ (e ≠ Ev.sysinfo ∧ ∀ n, e ≠ Ev.sleep n) := by
  unfold launch at he
  by_cases h1 : env.setreuid = true <;> cases h2 : daemonPath env.argv0 <;>
    by_cases h3 : env.fork = true <;> by_cases h4 : env.execv = true <;>
    simp only [h1, h2, h3, h4, St.unlink, St.setW, St.log, if_true, if_false, Bool.not_true,
      Bool.not_false, List.mem_append, List.mem_singleton, Bool.false_eq_true] at he <;>
    aesop

/-! ## Parsing the marker -/

/-- A number below `2 ^ 31` is unchanged by the conversion to `int`. -/
theorem toInt32_small (n : Nat) (h : n < 2 ^ 31) : toInt32 (n : Int) = n := by
  unfold toInt32
  norm_num at h ⊢
  omega

/-- For a file below `2 ^ 31` bytes `size_to_read` is the smaller of 256 and the
size. -/
theorem sizeToRead_small (n : Nat) (h : n < 2 ^ 31) :
    sizeToRead (toInt32 (n : Int)) = min 256 n := by
  rw [toInt32_small n h]
  unfold sizeToRead
  norm_num at h ⊢
  split <;> omega

/-- After the read of a non-empty marker the array starts with the first byte of the
marker. -/
theorem readInto_cons (stale : Bytes) (c : Char) (r : Bytes) (h : (c :: r).length < 2 ^ 31) :
    ∃ t, readInto stale (c :: r) (sizeToRead (toInt32 ((c :: r).length : Int))) = c :: t := by
  rw [sizeToRead_small _ h]
  unfold readInto
  have : min (min 256 (c :: r).length) (c :: r).length = (min 255 r.length) + 1 := by
    simp only [List.length_cons]
    omega
  rw [this]
  simp

/-- The call `atoi` yields 0 on a string that starts with neither white space, sign
nor digit. -/
theorem atoi_nondigit (c : Char) (t : Bytes) (h1 : isspace c = false) (h2 : isdigit c = false)
    (h3 : c ≠ '-') (h4 : c ≠ '+') : atoi (c :: t) = 0 := by
  unfold atoi parseLong
  simp [List.dropWhile, h1, h3, h4, digitsValue, h2]
  decide

/-- The call `kill( 0, 0 )` succeeds in every process table. -/
theorem kill_zero (t : Procs) : kill t 0 = KillRes.ok := by
  simp [kill]

/-- In every world, a marker that starts with neither white space, sign nor digit
makes the probe answer Running and stay in place. -/
theorem probe_nonnumeric (env : Env) (k : Nat) (st : St) (c : Char) (r : Bytes)
    (hcwd : st.cwd = Cwd.home) (hm : st.w.home.get markerName = some (c :: r))
    (hlen : (c :: r).length < 2 ^ 31)
    (hopen : env.markerOpen k = true) (hread : env.markerRead k = true)
    (h1 : isspace c = false) (h2 : isdigit c = false) (h3 : c ≠ '-') (h4 : c ≠ '+') :
    probe env k st = Except.ok (Liveness.running, st.log (Ev.kill 0)) := by
  obtain ⟨t, ht⟩ := readInto_cons (env.stale k) c r hlen
  simp only [probe, World.stat, hcwd, resolve_marker_home, World.dir, hm, Option.map_some',
    check_mailer_running, World.content, hopen, hread, if_true, Bool.not_true,
    Bool.false_eq_true, if_false, ht, atoi_nondigit c t h1 h2 h3 h4, St.log, kill_zero]
  simp

/-- When `kill` reports `ESRCH` for the number parsed, the probe deletes the marker
and answers NotRunning, and every later probe answers NotRunning and changes
nothing. -/
theorem stale_marker_pruned (env : Env) (k : Nat) (st : St) (content : Bytes)
    (hcwd : st.cwd = Cwd.home) (hm : st.w.home.get markerName = some content)
    (hopen : env.markerOpen k = true) (hread : env.markerRead k = true)
    (hk : kill st.w.procs (probedPid env k content) = KillRes.ESRCH) :
    probe env k st = Except.ok (Liveness.notRunning,
      (st.log (Ev.kill (probedPid env k content))).unlink markerName) ∧
    ((st.log (Ev.kill (probedPid env k content))).unlink markerName).w.home.get markerName
      = none ∧
    ∀ j, probe env j ((st.log (Ev.kill (probedPid env k content))).unlink markerName)
      = Except.ok (Liveness.notRunning,
          (st.log (Ev.kill (probedPid env k content))).unlink markerName) := by
  have hgone : ((st.log (Ev.kill (probedPid env k content))).unlink markerName).w.home.get
      markerName = none := by
    simp [St.unlink, St.setW, St.log, World.unlink, hcwd, resolve_marker_home, World.setDir,
      World.dir, Dir.get_del_same]
  refine ⟨?_, hgone, ?_⟩
  · unfold probedPid at hk
    simp only [probe, World.stat, hcwd, resolve_marker_home, World.dir, hm, Option.map_some',
      check_mailer_running, World.content, hopen, hread, if_true, Bool.not_true,
      Bool.false_eq_true, if_false, St.log, hk, probedPid]
    simp
  · intro j
    have hc : ((st.log (Ev.kill (probedPid env k content))).unlink markerName).cwd = Cwd.home := by
      simp [St.unlink, St.setW, St.log, hcwd]
    simp only [probe, World.stat, hc, resolve_marker_home, World.dir, hgone, Option.map_none']

/-! ## Decimal formatting and parsing -/

/-- Every digit produced is below 10. -/
theorem decRev_lt (fuel n : Nat) : ∀ d ∈ decRev fuel n, d < 10 := by
  induction fuel generalizing n with
  | zero => simp [decRev]
  | succ f ih =>
    intro d hd
    rw [decRev] at hd
    split at hd
    · simp at hd
    · simp only [List.mem_cons] at hd
      rcases hd with hd | hd
      · omega
      · exact ih _ d hd

/-- With enough fuel the digits produced are those of the number. -/
theorem revVal_decRev (fuel n : Nat) (h : n ≤ fuel) : revVal (decRev fuel n) = n := by
  induction fuel generalizing n with
  | zero =>
    have : n = 0 := by omega
    simp [decRev, revVal, this]
  | succ f ih =>
    rw [decRev]
    split
    · rename_i h0
      simp [revVal, h0]
    · rename_i h0
      have hlt : n / 10 ≤ f := by omega
      simp only [revVal, ih _ hlt]
      omega

/-- The character of a digit is a digit whose value is that digit. -/
theorem digitChar_isdigit (d : Nat) (h : d < 10) :
    isdigit (digitChar d) = true ∧ (digitChar d).toNat - 48 = d := by
  interval_cases d <;> decide

/-- Reading a printed list of digits accumulates their value. -/
theorem digitsValue_digits (acc : Nat) (ds : List Nat) (t : Bytes) (h : ∀ d ∈ ds, d < 10) :
    digitsValue acc (ds.reverse.map digitChar ++ t)
      = digitsValue (acc * 10 ^ ds.length + revVal ds) t := by
  induction ds generalizing t with
  | nil => simp [revVal]
  | cons d r ih =>
    have hd := digitChar_isdigit d (h d (by simp))
    have hr : ∀ x ∈ r, x < 10 := fun x hx => h x (by simp [hx])
    simp only [List.reverse_cons, List.map_append, List.map_cons, List.map_nil,
      List.append_assoc, List.singleton_append, List.length_cons]
    rw [ih _ hr, digitsValue]
    simp only [hd.1, if_true, hd.2, revVal]
    congr 1
    ring

/-- Leading zeros do not change the value read. -/
theorem digitsValue_zeros (k : Nat) (s : Bytes) :
    digitsValue 0 (List.replicate k '0' ++ s) = digitsValue 0 s := by
  induction k with
  | zero => simp
  | succ k ih =>
    simp only [List.replicate_succ, List.cons_append]
    rw [digitsValue]
    have : isdigit '0' = true := by decide
    simp only [this, if_true]
    simpa using ih

/-- Reading back what `%0<w>u` printed gives the number printed. -/
theorem digitsValue_fmtZero (w n : Nat) : digitsValue 0 (fmtZero w n) = n := by
  unfold fmtZero
  rw [digitsValue_zeros]
  have := digitsValue_digits 0 (decRev n n) [] (decRev_lt n n)
  simp only [List.append_nil] at this
  rw [this, revVal_decRev n n (le_refl n)]
  simp [digitsValue]

/-- The conversion `%0<w>u` prints different numbers differently. -/
theorem fmtZero_inj (w i j : Nat) (h : fmtZero w i = fmtZero w j) : i = j := by
  have := congrArg (digitsValue 0) h
  simpa [digitsValue_fmtZero] using this

/-- Different disambiguators give different hidden names. -/
theorem hiddenName_inj (ts i j : Nat) (h : hiddenName ts i = hiddenName ts j) : i = j := by
  unfold hiddenName at h
  have h1 := List.append_cancel_left h
  simp only [List.cons.injEq, true_and] at h1
  exact fmtZero_inj 5 i j h1

/-- Different disambiguators give different visible names. -/
theorem visibleName_inj (ts i j : Nat) (h : visibleName ts i = visibleName ts j) : i = j := by
  apply hiddenName_inj ts
  rw [hiddenName_eq, hiddenName_eq, h]

/-! ## The name search and the copy loop -/

/-- In the queue directory `stat( filename+1 )` succeeds exactly when the visible
name exists. -/
theorem stat_visible (w : World) (ts i : Nat) :
    w.stat Cwd.mqueue (visibleName ts i) = (w.mqueue.get (visibleName ts i)).map List.length := by
  simp [World.stat, resolve_visible_mqueue, World.dir]

/-- When the search started at `i` creates the name of `n`: `n` is not below `i`,
both names of `n` were absent, and every disambiguator from `i` up to `n` was taken. -/
theorem search_spec (env : Env) (ts fuel i : Nat) (st : St) (n : Nat) (st1 : St)
    (h : search env ts fuel i st = Search.created n st1) :
    i ≤ n ∧ st.w.mqueue.get (hiddenName ts n) = none ∧
    st.w.mqueue.get (visibleName ts n) = none ∧
    ∀ j, i ≤ j → j < n →
      (st.w.mqueue.get (visibleName ts j)).isSome = true ∨
      (st.w.mqueue.get (hiddenName ts j)).isSome = true := by
  induction fuel generalizing i with
  | zero => simp [search] at h
  | succ f ih =>
    rw [search] at h
    split at h
    · rename_i hs
      obtain ⟨h1, h2, h3, h4⟩ := ih _ h
      refine ⟨by omega, h2, h3, ?_⟩
      intro j hj hjn
      by_cases hji : j = i
      · subst hji
        left
        simpa [stat_visible] using hs
      · exact h4 j (by omega) hjn
    · rename_i hs
      split at h
      · rename_i ho
        obtain ⟨h1, h2, h3, h4⟩ := ih _ h
        refine ⟨by omega, h2, h3, ?_⟩
        intro j hj hjn
        by_cases hji : j = i
        · subst hji
          right
          unfold openExcl at ho
          split at ho
          · rename_i c hc
            simp [hc]
          · split at ho <;> simp at ho
        · exact h4 j (by omega) hjn
      · simp at h
      · rename_i st2 ho
        simp only [Search.created.injEq] at h
        obtain ⟨hn, -⟩ := h
        subst hn
        refine ⟨le_refl _, ?_, ?_, ?_⟩
        · unfold openExcl at ho
          split at ho
          · simp at ho
          · rename_i hc
            exact hc
        · simpa [stat_visible] using hs
        · intro j hj hjn
          omega

/-- A copy loop that reaches the end of the stream has appended every chunk to the
hidden file, with one full write per chunk, and has left the visible name absent. -/
theorem copyStdin_spec (env : Env) (name v : Bytes) (chunks : List Bytes) (k : Nat)
    (st st1 : St) (acc : Bytes) (hv : v ≠ name) (hne : ∀ c ∈ chunks, 0 < c.length)
    (hacc : st.w.mqueue.get name = some acc) (hnv : st.Unpublished v)
    (h : copyStdin env name (chunks.map ReadRes.data) k st = Except.ok st1) :
    st1.w.mqueue.get name = some (acc ++ chunks.flatten) ∧ st1.Unpublished v ∧
    st1.trace = st.trace ++ chunks.map (fun c => Ev.write name c.length) := by
  induction chunks generalizing k st acc with
  | nil =>
    simp only [List.map_nil, copyStdin, Except.ok.injEq] at h
    subst h
    simp [hacc, hnv]
  | cons c rest ih =>
    have hc : c.length ≠ 0 := by
      have := hne c (by simp)
      omega
    simp only [List.map_cons] at h
    rw [copyStdin] at h
    simp only [hc, if_false] at h
    split at h
    · simp at h
    · rename_i hfull
      simp only [ne_eq, not_not] at hfull
      have hm : (writeChunk env k name c st).2.w.mqueue
          = st.w.mqueue.put name (acc ++ c) := by
        simp only [writeChunk] at hfull ⊢
        simp only [St.setW, St.log, hacc, Option.getD_some, hfull, List.take_length]
      have hacc1 : (writeChunk env k name c st).2.w.mqueue.get name = some (acc ++ c) := by
        rw [hm, Dir.get_put_same]
      have hnv1 : (writeChunk env k name c st).2.Unpublished v := by
        constructor
        · rw [hm, Dir.get_put_other _ _ _ _ hv]
          exact hnv.1
        · intro s hs
          have hsn : (writeChunk env k name c st).2.snaps
              = st.snaps ++ [(writeChunk env k name c st).2.w] := by
            simp [writeChunk, St.setW, St.log]
          rw [hsn] at hs
          simp only [List.mem_append, List.mem_singleton] at hs
          rcases hs with hs | hs
          · exact hnv.2 s hs
          · rw [hs, hm, Dir.get_put_other _ _ _ _ hv]
            exact hnv.1
      obtain ⟨r1, r2, r3⟩ := ih (k + 1) _ (acc ++ c) (fun x hx => hne x (by simp [hx]))
        hacc1 hnv1 h
      refine ⟨by simpa using r1, r2, ?_⟩
      rw [r3]
      have hfull1 : (writeChunk env k name c st).1 = c.length := hfull
      simp [writeChunk, St.setW, St.log] at hfull1 ⊢
      simp [writeChunk, hfull1]

/-! ## Termination of the name search -/

/-- An entry that is found is among the names of the directory. -/
theorem Dir.mem_of_get (d : Dir) (n : Bytes) (h : (d.get n).isSome = true) :
    n ∈ d.map Prod.fst := by
  induction d with
  | nil => simp [Dir.get] at h
  | cons e r ih =>
    obtain ⟨k, v⟩ := e
    by_cases hk : k = n
    · simp [hk]
    · simp only [Dir.get, hk, if_false] at h
      simp [ih h]

/-- A directory with `n` entries cannot have the `n + 1` disambiguators `0..n`
all taken. -/
theorem not_all_taken (q : Dir) (ts : Nat) : ¬ ∀ j, j ≤ q.length → taken q ts j := by
  intro hall
  classical
  let f : Nat → Bytes := fun j =>
    if (q.get (visibleName ts j)).isSome = true then visibleName ts j else hiddenName ts j
  have hmem : ∀ j ∈ Finset.range (q.length + 1), f j ∈ (q.map Prod.fst).toFinset := by
    intro j hj
    have hj1 : j ≤ q.length := by
      have := Finset.mem_range.mp hj
      omega
    simp only [List.mem_toFinset, f]
    split
    · rename_i hv
      exact Dir.mem_of_get q _ hv
    · rename_i hv
      rcases hall j hj1 with h | h
      · exact absurd h hv
      · exact Dir.mem_of_get q _ h
  have hinj : Set.InjOn f (Finset.range (q.length + 1) : Set Nat) := by
    intro i _ j _ hij
    simp only [f] at hij
    split at hij <;> split at hij
    · exact visibleName_inj ts i j hij
    · exact absurd hij.symm (hidden_ne_visible _ _ _ _)
    · exact absurd hij (hidden_ne_visible _ _ _ _)
    · exact hiddenName_inj ts i j hij
  have h1 := Finset.card_le_card_of_injOn f hmem hinj
  have h2 := List.toFinset_card_le (q.map Prod.fst)
  simp only [Finset.card_range, List.length_map] at h1 h2
  omega

/-- A search that runs out of fuel found every disambiguator it tried taken. -/
theorem search_diverged (env : Env) (ts fuel i : Nat) (st : St)
    (h : search env ts fuel i st = Search.diverged) :
    ∀ j, i ≤ j → j < i + fuel → taken st.w.mqueue ts j := by
  induction fuel generalizing i with
  | zero =>
    intro j h1 h2
    omega
  | succ f ih =>
    intro j h1 h2
    rw [search] at h
    split at h
    · rename_i hs
      by_cases hji : j = i
      · subst hji
        left
        simpa [stat_visible] using hs
      · exact ih _ h j (by omega) (by omega)
    · split at h
      · rename_i ho
        by_cases hji : j = i
        · subst hji
          right
          unfold openExcl at ho
          split at ho
          · rename_i c hc
            simp [hc]
          · split at ho <;> simp at ho
        · exact ih _ h j (by omega) (by omega)
      · simp at h
      · simp at h

/-- The name search of `main` terminates: with as many iterations as the queue
directory has entries, plus one, it ends with a created file or a fatal error. -/
theorem search_terminates (env : Env) (ts : Nat) (st : St) :
    search env ts (st.w.mqueue.length + 1) 0 st ≠ Search.diverged := by
  intro h
  apply not_all_taken st.w.mqueue ts
  intro j hj
  exact search_diverged env ts _ 0 st h j (Nat.zero_le j) (by omega)

/-- The function `main` always ends with an outcome. -/
theorem main_total (env : Env) (w : World) : ∃ o, main env w = some o := by
  unfold main
  cases he : enqueue env w with
  | ok a =>
    by_cases hup : env.chdirUp = true <;> simp [hup]
  | error r =>
    cases r with
    | some o => exact ⟨o, rfl⟩
    | none =>
      exfalso
      unfold enqueue at he
      split at he
      · simp at he
      · split at he
        · simp at he
        · split at he
          · simp at he
          · split at he
            · simp at he
            · split at he
              · simp at he
              · simp only at he
                split at he
                · rename_i hs
                  exact search_terminates env _ _ hs
                · simp at he
                · split at he
                  · simp at he
                  · split at he <;> simp at he

/-! ## A marker whose text is followed by no digit -/

/-- A number below `10 ^ k` has at most `k` digits. -/
theorem decRev_length (k fuel n : Nat) (h : n < 10 ^ k) : (decRev fuel n).length ≤ k := by
  induction k generalizing fuel n with
  | zero =>
    have : n = 0 := by simpa using h
    subst this
    cases fuel <;> simp [decRev]
  | succ k ih =>
    cases fuel with
    | zero => simp [decRev]
    | succ f =>
      rw [decRev]
      split
      · simp
      · have : n / 10 < 10 ^ k := by
          rw [pow_succ] at h
          omega
        simp only [List.length_cons]
        have := ih f (n / 10) this
        omega

/-- The character of a digit is neither white space nor a sign. -/
theorem digitChar_plain (d : Nat) (h : d < 10) :
    isspace (digitChar d) = false ∧ digitChar d ≠ '-' ∧ digitChar d ≠ '+' := by
  interval_cases d <;> decide

/-- The decimal text of a positive number starts with a digit. -/
theorem decimalText_cons (p : Nat) (hp : 0 < p) :
    ∃ d r, d < 10 ∧ decimalText p = digitChar d :: r := by
  have hne : decRev p p ≠ [] := by
    cases p with
    | zero => omega
    | succ n => simp [decRev]
  have hne2 : (decRev p p).reverse ≠ [] := by simpa using hne
  obtain ⟨d, r, hr⟩ := List.exists_cons_of_ne_nil hne2
  refine ⟨d, r.map digitChar, ?_, ?_⟩
  · apply decRev_lt p p
    have : d ∈ (decRev p p).reverse := by simp [hr]
    simpa using this
  · simp [decimalText, hr]

/-- The call `atoi` reads back a decimal text that is followed by no further
digit. -/
theorem atoi_decimalText (p : Nat) (hp : 0 < p) (hp2 : p < 2 ^ 31) (t : Bytes)
    (ht : ∀ c r, t = c :: r → isdigit c = false) : atoi (decimalText p ++ t) = p := by
  have hval : digitsValue 0 (decimalText p ++ t) = p := by
    unfold decimalText
    rw [digitsValue_digits 0 _ t (decRev_lt p p), revVal_decRev p p (le_refl p)]
    cases t with
    | nil => simp [digitsValue]
    | cons c r =>
      rw [digitsValue]
      simp [ht c r rfl]
  obtain ⟨d, r, hd, hr⟩ := decimalText_cons p hp
  obtain ⟨h1, h2, h3⟩ := digitChar_plain d hd
  have hparse : parseLong (decimalText p ++ t) = p := by
    have hv := hval
    rw [hr] at hv ⊢
    unfold parseLong
    simp only [List.cons_append, List.dropWhile, h1, h2, h3, if_false]
    simp only [List.cons_append] at hv
    exact_mod_cast hv
  unfold atoi
  rw [hparse]
  have e1 : min (2 ^ 63 - 1 : Int) (p : Int) = p := by
    apply min_eq_right
    norm_num at hp2 ⊢
    omega
  have e2 : max (-(2 ^ 63) : Int) (p : Int) = p := by
    apply max_eq_right
    norm_num
    omega
  rw [e1, e2]
  exact toInt32_small p hp2

/-- The probe passes the number written in the marker to `kill` when the byte that
follows the marker text in the array is not a digit. -/
theorem probedPid_decimalText (env : Env) (k p : Nat) (hp : 0 < p) (hp2 : p < 2 ^ 31)
    (hterm : ∀ c r, (env.stale k).drop (decimalText p).length = c :: r → isdigit c = false) :
    probedPid env k (decimalText p) = p := by
  have hlen : (decimalText p).length ≤ 10 := by
    simp only [decimalText, List.length_map, List.length_reverse]
    apply decRev_length
    norm_num at hp2 ⊢
    omega
  unfold probedPid
  rw [sizeToRead_small _ (by norm_num; omega)]
  unfold readInto
  have : min (min 256 (decimalText p).length) (decimalText p).length
      = (decimalText p).length := by omega
  rw [this, List.take_length]
  exact atoi_decimalText p hp hp2 _ hterm

/-- A marker holding the decimal text of a dead process is pruned and answered
NotRunning, and every later probe answers NotRunning and changes nothing,
provided the byte that follows the text in the array `buf` is not a digit. -/
theorem dead_pid_marker_pruned_if_terminated (env : Env) (k : Nat) (st : St) (p : Nat)
    (hcwd : st.cwd = Cwd.home) (hp : 0 < p) (hp2 : p < 2 ^ 31)
    (hm : st.w.home.get markerName = some (decimalText p))
    (hopen : env.markerOpen k = true) (hread : env.markerRead k = true)
    (hterm : ∀ c r, (env.stale k).drop (decimalText p).length = c :: r → isdigit c = false)
    (hdead : kill st.w.procs p = KillRes.ESRCH) :
    probe env k st = Except.ok (Liveness.notRunning,
      (st.log (Ev.kill p)).unlink markerName) ∧
    ((st.log (Ev.kill p)).unlink markerName).w.home.get markerName = none ∧
    ∀ j, probe env j ((st.log (Ev.kill p)).unlink markerName)
      = Except.ok (Liveness.notRunning, (st.log (Ev.kill p)).unlink markerName) := by
  have hpid := probedPid_decimalText env k p hp hp2 hterm
  have := stale_marker_pruned env k st (decimalText p) hcwd hm hopen hread (by rw [hpid]; exact hdead)
  rw [hpid] at this
  exact this

/-! ## C1: a running daemon means Skip -/

/-- C1: when admission has succeeded (and the wrapper is back in the home
directory) and the first liveness probe answers Running, `main` returns status 0
with the verdict Skip, whatever `dir_was_empty` is: the run contains no load
sample, no sleep, no fork and no exec, and the world is the one the admission
left, so the marker and the admitted message are still in place. -/
theorem running_daemon_skips (env : Env) (w : World) (a : Admitted) (st1 : St)
    (hadm : enqueue env w = Except.ok a) (hup : env.chdirUp = true)
    (hrun : probe env 0 { a.st with cwd := Cwd.home } = Except.ok (Liveness.running, st1)) :
    main env w = some { status := 0, child := none, decision := some Decision.skip, st := st1 } ∧
    (∀ e ∈ st1.trace, e ≠ Ev.sysinfo ∧ e ≠ Ev.fork ∧ (∀ n, e ≠ Ev.sleep n) ∧
      ∀ p v, e ≠ Ev.execv p v) ∧
    st1.w = a.st.w ∧
    (st1.w.home.get markerName).isSome = true ∧
    (st1.w.mqueue.get (visibleName a.ts a.i)).isSome = true := by
  have hmain : main env w
      = some { status := 0, child := none, decision := some Decision.skip, st := st1 } := by
    simp [main, hadm, hup, activate, hrun, skip]
  have hw := enqueue_writing env w a hadm
  have hv := enqueue_visible env w a hadm
  rcases probe_cases env 0 _ st1 _ hrun with ⟨-, h, -⟩ | ⟨c, hc, -, -, h1⟩ | ⟨c, -, -, h, -⟩
  · exact absurd h (by decide)
  · subst h1
    refine ⟨hmain, ?_, rfl, ?_, hv⟩
    · intro e he
      simp only [St.log, List.mem_append, List.mem_singleton] at he
      rcases he with he | he
      · have := hw.2.2.2 e he
        refine ⟨?_, ?_, ?_, ?_⟩ <;> (intros; intro hx; subst hx; simp [Ev.isFileOp] at this)
      · subst he
        simp
    · simp only [World.content, resolve_marker_home, World.dir] at hc
      simp [St.log, hc]
  · exact absurd h (by decide)

/-- C1 at a concrete run: the marker names process 4711, which is alive. -/
theorem running_daemon_skips_witness :
    (enqueue helloEnv (markedWorld "4711".toList)
        = Except.ok (admitted helloEnv (markedWorld "4711".toList)) ∧
      helloEnv.chdirUp = true ∧
      probe helloEnv 0 { (admitted helloEnv (markedWorld "4711".toList)).st with cwd := Cwd.home }
        = Except.ok (Liveness.running,
            probed helloEnv 0
              { (admitted helloEnv (markedWorld "4711".toList)).st with cwd := Cwd.home })) ∧
    main helloEnv (markedWorld "4711".toList)
      = some { status := 0, child := none, decision := some Decision.skip,
               st := probed helloEnv 0
                 { (admitted helloEnv (markedWorld "4711".toList)).st with cwd := Cwd.home } } :=
  ⟨⟨rfl, rfl, rfl⟩,
    (running_daemon_skips helloEnv (markedWorld "4711".toList)
      (admitted helloEnv (markedWorld "4711".toList)) _ rfl rfl rfl).1⟩

/-! ## C2: an empty queue and no marker mean Spawn -/

/-- C2: when the queue directory held no entry before the admission, the admission
succeeds (and the wrapper is back in the home directory) and there is no marker,
`main` goes straight to the launcher: the verdict is Spawn, the run contains no
load sample and no sleep, and the outcome is the same for every load value, every
width of `unsigned long` and every later change of the world. -/
theorem empty_queue_spawns (env : Env) (w : World) (a : Admitted)
    (hempty : w.mqueue = []) (hmarker : w.home.get markerName = none)
    (hadm : enqueue env w = Except.ok a) (hup : env.chdirUp = true) :
    main env w = some (launch env (longName a.ts a.i) { a.st with cwd := Cwd.home }) ∧
    (launch env (longName a.ts a.i) { a.st with cwd := Cwd.home }).decision
      = some Decision.spawn ∧
    (∀ e ∈ (launch env (longName a.ts a.i) { a.st with cwd := Cwd.home }).st.trace,
      e ≠ Ev.sysinfo ∧ ∀ n, e ≠ Ev.sleep n) ∧
    (∀ (bits load : Nat) (during : World → World),
      main { env with ulongBits := bits, load := load, during := during } w = main env w) := by
  have hw := enqueue_writing env w a hadm
  obtain ⟨st3, st4, hde, -, -, -, -⟩ := enqueue_cases env w a hadm
  have hde1 : a.dir_was_empty = true := by
    rw [hde]
    simp [readdir, hempty]
    decide
  have hprobe : ∀ env1 : Env, probe env1 0 { a.st with cwd := Cwd.home }
      = Except.ok (Liveness.notRunning, { a.st with cwd := Cwd.home }) := by
    intro env1
    simp [probe, World.stat, resolve_marker_home, World.dir, hw.1, hmarker]
  have hmain : ∀ env1 : Env, enqueue env1 w = Except.ok a → env1.chdirUp = true →
      main env1 w = some (launch env1 (longName a.ts a.i) { a.st with cwd := Cwd.home }) := by
    intro env1 h1 h2
    simp [main, h1, h2, activate, hprobe env1, hde1]
  refine ⟨hmain env hadm hup, launch_decision _ _ _, ?_, ?_⟩
  · intro e he
    rcases launch_trace env _ _ e he with h | h
    · have := hw.2.2.2 e h
      constructor <;> (intros; intro hx; subst hx; simp [Ev.isFileOp] at this)
    · exact h
  · intro bits load during
    rw [hmain env hadm hup, hmain _ ((enqueue_env env bits load during w).trans hadm) hup,
      launch_env]

/-- C2 at a concrete run: `hello` arrives at an empty queue without a marker. -/
theorem empty_queue_spawns_witness :
    (emptyWorld.mqueue = [] ∧ emptyWorld.home.get markerName = none ∧
      enqueue helloEnv emptyWorld = Except.ok (admitted helloEnv emptyWorld) ∧
      helloEnv.chdirUp = true) ∧
    main helloEnv emptyWorld
      = some (launch helloEnv
          (longName (admitted helloEnv emptyWorld).ts (admitted helloEnv emptyWorld).i)
          { (admitted helloEnv emptyWorld).st with cwd := Cwd.home }) :=
  ⟨⟨rfl, rfl, rfl, rfl⟩,
    (empty_queue_spawns helloEnv emptyWorld (admitted helloEnv emptyWorld) rfl rfl rfl rfl).1⟩

/-! ## C3: the re-check after the wait -/

/-- C3: when the queue held a backlog (`dir_was_empty` is false) and the first
probe answered NotRunning, the verdict after the backoff sleep is Spawn exactly
when the second probe answers NotRunning and `stat` still finds the admitted
message under `mqueue/mail.<timestamp>.<n>`; when the message is gone after the
wait and there is no marker, the verdict is Skip and the exit status 0. -/
theorem backlog_recheck (env : Env) (w : World) (a : Admitted) (st1 : St)
    (hadm : enqueue env w = Except.ok a) (hup : env.chdirUp = true)
    (hback : a.dir_was_empty = false)
    (hfirst : probe env 0 { a.st with cwd := Cwd.home } = Except.ok (Liveness.notRunning, st1)) :
    main env w = some (activate env a { a.st with cwd := Cwd.home }) ∧
    ((activate env a { a.st with cwd := Cwd.home }).decision = some Decision.spawn ↔
      (∃ st4, probe env 1 (backoff env st1) = Except.ok (Liveness.notRunning, st4)) ∧
      ((backoff env st1).w.stat Cwd.home (longName a.ts a.i)).isSome = true) ∧
    ((backoff env st1).w.stat Cwd.home markerName = none →
      (backoff env st1).w.stat Cwd.home (longName a.ts a.i) = none →
      (activate env a { a.st with cwd := Cwd.home }).decision = some Decision.skip ∧
      (activate env a { a.st with cwd := Cwd.home }).status = 0) := by
  have hw := enqueue_writing env w a hadm
  have hcwd1 : st1.cwd = Cwd.home := (probe_frame env 0 _ st1 _ rfl hfirst).2.2
  have hcwd2 : (backoff env st1).cwd = Cwd.home := by simp [backoff, St.setW, St.log, hcwd1]
  have hact : activate env a { a.st with cwd := Cwd.home } =
      match probe env 1 (backoff env st1) with
      | Except.error st4 => exit1 st4
      | Except.ok (Liveness.running, st4) => skip st4
      | Except.ok (Liveness.notRunning, st4) =>
        if (st4.w.stat st4.cwd (longName a.ts a.i)).isNone then skip st4
        else launch env (longName a.ts a.i) st4 := by
    simp [activate, hfirst, hback]
  refine ⟨by simp [main, hadm, hup], ?_, ?_⟩
  · rw [hact]
    cases hp : probe env 1 (backoff env st1) with
    | error st4 => simp [exit1]
    | ok r =>
      obtain ⟨l, st4⟩ := r
      obtain ⟨hq, -, hc⟩ := probe_frame env 1 _ st4 l hcwd2 hp
      have hstat : st4.w.stat st4.cwd (longName a.ts a.i)
          = (backoff env st1).w.stat Cwd.home (longName a.ts a.i) := by
        simp [World.stat, hc, resolve_longName, World.dir, hq]
      cases l with
      | running => simp [skip]
      | notRunning =>
        simp only [hstat]
        cases hs : (backoff env st1).w.stat Cwd.home (longName a.ts a.i) with
        | none => simp [skip]
        | some n => simp [launch_decision]
  · intro hm hmsg
    rw [hact]
    have hp : probe env 1 (backoff env st1)
        = Except.ok (Liveness.notRunning, backoff env st1) := by
      simp [probe, hcwd2, hm]
    simp [hp, hcwd2, hmsg, skip]

/-- C3 at a concrete run: one older message in the queue, no marker, nothing
happens during the wait. -/
theorem backlog_recheck_witness :
    (enqueue helloEnv backlogWorld = Except.ok (admitted helloEnv backlogWorld) ∧
      helloEnv.chdirUp = true ∧
      (admitted helloEnv backlogWorld).dir_was_empty = false ∧
      probe helloEnv 0 { (admitted helloEnv backlogWorld).st with cwd := Cwd.home }
        = Except.ok (Liveness.notRunning,
            probed helloEnv 0 { (admitted helloEnv backlogWorld).st with cwd := Cwd.home })) ∧
    main helloEnv backlogWorld
      = some (activate helloEnv (admitted helloEnv backlogWorld)
          { (admitted helloEnv backlogWorld).st with cwd := Cwd.home }) :=
  ⟨⟨rfl, rfl, rfl, rfl⟩,
    (backlog_recheck helloEnv backlogWorld (admitted helloEnv backlogWorld) _ rfl rfl rfl rfl).1⟩

/-! ## C4: a marker that is not a number -/

/-- C4: for the marker text `abc`, `atoi` yields 0 and `kill( 0, 0 )` addresses
the wrapper's own process group, so it succeeds: the probe answers Running, the
marker stays, and `main` returns 0 with the verdict Skip.  The same holds for an
empty marker when the array starts with a zero byte.  A marker naming the dead
process 999999999 is pruned and answered NotRunning in the same world. -/
theorem unparseable_marker_is_running :
    (probedPid helloEnv 0 "abc".toList = 0 ∧
      kill someProcs 0 = KillRes.ok ∧
      probe helloEnv 0 (firstProbeState helloEnv "abc".toList)
        = Except.ok (Liveness.running, probed helloEnv 0 (firstProbeState helloEnv "abc".toList)) ∧
      (probed helloEnv 0 (firstProbeState helloEnv "abc".toList)).w.home.get markerName
        = some "abc".toList ∧
      (main helloEnv (markedWorld "abc".toList)).map (fun o => (o.status, o.decision))
        = some (0, some Decision.skip)) ∧
    (probe helloEnv 0 (firstProbeState helloEnv [])
        = Except.ok (Liveness.running, probed helloEnv 0 (firstProbeState helloEnv [])) ∧
      (probed helloEnv 0 (firstProbeState helloEnv [])).w.home.get markerName = some []) ∧
    (kill someProcs 999999999 = KillRes.ESRCH ∧
      probe helloEnv 0 (firstProbeState helloEnv "999999999".toList)
        = Except.ok (Liveness.notRunning,
            probed helloEnv 0 (firstProbeState helloEnv "999999999".toList)) ∧
      (probed helloEnv 0 (firstProbeState helloEnv "999999999".toList)).w.home.get markerName
        = none) := by
  refine ⟨⟨by decide, by decide, rfl, rfl, rfl⟩, ⟨rfl, rfl⟩, ⟨by decide, rfl, rfl⟩⟩

/-! ## C5: what happens to the admitted message afterwards -/

/-- A probe that ends in `exit( 1 )` has only printed a diagnostic. -/
theorem probe_error (env : Env) (k : Nat) (st st1 : St)
    (h : probe env k st = Except.error st1) : st1 = st.log Ev.diag := by
  unfold probe at h
  split at h
  · simp at h
  · split at h
    · rename_i st2 hc
      simp only [Except.error.injEq] at h
      subst h
      unfold check_mailer_running at hc
      split at hc
      · simp only [Check.exit.injEq] at hc
        exact hc.symm
      · dsimp only at hc
        split at hc
        · simp only [Check.exit.injEq] at hc
          exact hc.symm
        · split at hc <;> simp at hc
    · split at h <;> simp at h

/-- A state in the home directory is kept by itself. -/
theorem St.Kept.refl (st : St) (h : st.cwd = Cwd.home) : st.Kept st :=
  ⟨h, rfl, fun _ hp => Or.inl hp⟩

/-- The relation `Kept` composes. -/
theorem St.Kept.trans {a b c : St} (h1 : b.Kept a) (h2 : c.Kept b) : c.Kept a := by
  refine ⟨h2.1, h2.2.1.trans h1.2.1, ?_⟩
  intro path hp
  rcases h2.2.2 path hp with h | h
  · exact h1.2.2 path h
  · exact Or.inr h

/-- The liveness probe unlinks no file but the marker and leaves the queue directory
alone. -/
theorem probe_kept (env : Env) (k : Nat) (st : St) (hcwd : st.cwd = Cwd.home) :
    (probed env k st).Kept st := by
  unfold probed
  cases hp : probe env k st with
  | error st1 =>
    have := probe_error env k st st1 hp
    subst this
    refine ⟨hcwd, rfl, ?_⟩
    intro path h
    simp only [St.log, List.mem_append, List.mem_singleton] at h
    rcases h with h | h
    · exact Or.inl h
    · cases h
  | ok r =>
    obtain ⟨l, st1⟩ := r
    rcases probe_cases env k st st1 l hp with ⟨-, -, h1⟩ | ⟨c, -, -, -, h1⟩ | ⟨c, -, -, -, h1⟩
    · subst h1
      exact St.Kept.refl _ hcwd
    · subst h1
      refine ⟨hcwd, rfl, ?_⟩
      intro path h
      simp only [St.log, List.mem_append, List.mem_singleton] at h
      rcases h with h | h
      · exact Or.inl h
      · cases h
    · subst h1
      refine ⟨by simp [St.unlink, St.setW, St.log, hcwd], ?_, ?_⟩
      · simp [St.unlink, St.setW, St.log, World.unlink, hcwd, resolve_marker_home, World.setDir]
      · intro path h
        simp only [St.unlink, St.setW, St.log, List.mem_append, List.mem_singleton] at h
        rcases h with (h | h) | h
        · exact Or.inl h
        · cases h
        · simp only [Ev.unlink.injEq] at h
          exact Or.inr h

/-- The invariant `Holds` is preserved by steps that keep the queue directory. -/
theorem St.Holds.of_kept {st st1 : St} {m : Dir} (h : st.Holds m) (k : st1.Kept st) :
    st1.Holds m := by
  refine ⟨k.1, k.2.1.trans h.2.1, ?_⟩
  intro path hp
  rcases k.2.2 path hp with h1 | h1
  · exact h.2.2 path h1
  · exact h1

/-- After the sleep the invariant holds for the queue directory the rest of the
system left. -/
theorem backoff_holds (env : Env) (st : St) (m : Dir) (h : st.Holds m) :
    (backoff env st).Holds (backoff env st).w.mqueue := by
  refine ⟨by simp [backoff, St.setW, St.log, h.1], rfl, ?_⟩
  intro path hp
  simp only [backoff, St.setW, St.log, List.mem_append, List.mem_singleton] at hp
  rcases hp with (hp | hp) | hp
  · exact h.2.2 path hp
  · cases hp
  · cases hp

/-- A launcher that cannot start the daemon leaves the admitted message unlinked. -/
theorem launch_failure (env : Env) (ts i : Nat) (st : St) (hcwd : st.cwd = Cwd.home)
    (hf : launchFails env) :
    (launch env (longName ts i) st).st.w.mqueue.get (visibleName ts i) = none := by
  unfold launch
  by_cases h1 : env.setreuid = true <;> cases h2 : daemonPath env.argv0 <;>
    by_cases h3 : env.fork = true <;> by_cases h4 : env.execv = true <;>
    first
    | (rcases hf with hf | hf | hf <;> simp [h2, h3, h4] at hf; done)
    | simp [h1, h3, h4, St.unlink, St.setW, St.log, World.unlink, hcwd, resolve_longName,
        World.setDir, World.dir, Dir.get_del_same]

/-- A launcher that starts the daemon unlinks nothing and leaves the queue directory
alone. -/
theorem launch_success (env : Env) (long : Bytes) (st : St) (m : Dir) (h : st.Holds m)
    (hf : ¬ launchFails env) : (launch env long st).st.Holds m := by
  unfold launchFails at hf
  push_neg at hf
  obtain ⟨h2, h3, h4⟩ := hf
  obtain ⟨newname, hn⟩ := Option.ne_none_iff_exists'.mp h2
  have h3 : env.fork = true := by simpa using h3
  have h4 : env.execv = true := by simpa using h4
  obtain ⟨c1, c2, c3⟩ := h
  unfold launch
  by_cases h1 : env.setreuid = true
  · simp only [hn, h1, h3, h4, if_true, Bool.not_true, Bool.false_eq_true, if_false]
    refine ⟨c1, c2, ?_⟩
    intro path hp
    simp only [St.log, List.mem_append, List.mem_singleton] at hp
    rcases hp with (((hp | hp) | hp) | hp) | hp
    · exact c3 path hp
    all_goals cases hp
  · simp only [hn, h1, h3, h4, if_true, Bool.not_true, Bool.false_eq_true, if_false]
    refine ⟨c1, c2, ?_⟩
    intro path hp
    simp only [St.log, List.mem_append, List.mem_singleton] at hp
    rcases hp with ((((hp | hp) | hp) | hp) | hp) | hp
    · exact c3 path hp
    all_goals cases hp

/-- C5, as amended: once the rename has succeeded, the run unlinks the admitted
message in the cases of `cleansUp` (`chdir( ".." )` fails, or the launcher is
reached and `argv[0]` lacks `-wrapper`, `fork` fails or `execv` fails): the file
is gone at exit.  In every other run the only file the run unlinks is the marker,
and the queue directory at exit is the one the admission left or, after a
backoff, the one the rest of the system left during the wait. -/
theorem own_message_cleanup (env : Env) (w : World) (a : Admitted) (o : Outcome)
    (hadm : enqueue env w = Except.ok a) (hmain : main env w = some o) :
    (cleansUp env o → o.st.w.mqueue.get (visibleName a.ts a.i) = none) ∧
    (¬ cleansUp env o →
      (∀ path, Ev.unlink path ∈ o.st.trace → path = markerName) ∧
      (o.st.w.mqueue = a.st.w.mqueue ∨
        o.st.w.mqueue = (backoff env (probed env 0 { a.st with cwd := Cwd.home })).w.mqueue)) := by
  have hw := enqueue_writing env w a hadm
  have h0 : St.Holds { a.st with cwd := Cwd.home } a.st.w.mqueue := by
    refine ⟨rfl, rfl, ?_⟩
    intro path hp
    have := hw.2.2.2 _ hp
    simp [Ev.isFileOp] at this
  simp only [main, hadm] at hmain
  by_cases hup : env.chdirUp = true
  · simp only [hup, Bool.not_true, Bool.false_eq_true, if_false, Option.some.injEq] at hmain
    generalize hP : probed env 0 { a.st with cwd := Cwd.home } = P
    have h1 : P.Holds a.st.w.mqueue := hP ▸ h0.of_kept (probe_kept env 0 _ rfl)
    have hlaunch : ∀ (st : St) (m : Dir), st.Holds m → o = launch env (longName a.ts a.i) st →
        (cleansUp env o → o.st.w.mqueue.get (visibleName a.ts a.i) = none) ∧
        (¬ cleansUp env o →
          (∀ path, Ev.unlink path ∈ o.st.trace → path = markerName) ∧ o.st.w.mqueue = m) := by
      intro st m hst ho
      have hd : o.decision = some Decision.spawn := ho ▸ launch_decision _ _ _
      have hiff : cleansUp env o ↔ launchFails env := by
        simp [cleansUp, hup, hd]
      rw [hiff]
      constructor
      · intro hf
        rw [ho]
        exact launch_failure env _ _ st hst.1 hf
      · intro hf
        have := launch_success env (longName a.ts a.i) st m hst hf
        rw [ho]
        exact ⟨this.2.2, this.2.1⟩
    have hquiet : ∀ (st : St) (m : Dir), st.Holds m → o = skip st ∨ o = exit1 st →
        (cleansUp env o → o.st.w.mqueue.get (visibleName a.ts a.i) = none) ∧
        (¬ cleansUp env o →
          (∀ path, Ev.unlink path ∈ o.st.trace → path = markerName) ∧ o.st.w.mqueue = m) := by
      intro st m hst ho
      have hn : ¬ cleansUp env o := by
        rcases ho with ho | ho <;> simp [cleansUp, hup, ho, skip, exit1]
      refine ⟨fun h => absurd h hn, fun _ => ?_⟩
      rcases ho with ho | ho <;> (rw [ho]; exact ⟨hst.2.2, hst.2.1⟩)
    have weaken : ∀ m : Dir,
        (m = a.st.w.mqueue ∨
          m = (backoff env P).w.mqueue) →
        ((cleansUp env o → o.st.w.mqueue.get (visibleName a.ts a.i) = none) ∧
        (¬ cleansUp env o →
          (∀ path, Ev.unlink path ∈ o.st.trace → path = markerName) ∧ o.st.w.mqueue = m)) →
        (cleansUp env o → o.st.w.mqueue.get (visibleName a.ts a.i) = none) ∧
        (¬ cleansUp env o →
          (∀ path, Ev.unlink path ∈ o.st.trace → path = markerName) ∧
          (o.st.w.mqueue = a.st.w.mqueue ∨
            o.st.w.mqueue = (backoff env P).w.mqueue)) := by
      intro m hm h
      refine ⟨h.1, fun hn => ⟨(h.2 hn).1, ?_⟩⟩
      rw [(h.2 hn).2]
      exact hm
    unfold activate at hmain
    cases hp0 : probe env 0 { a.st with cwd := Cwd.home } with
    | error st1 =>
      have e1 : P = st1 := by
        rw [← hP]
        simp [probed, hp0]
      subst e1
      simp only [hp0] at hmain
      exact weaken _ (Or.inl rfl) (hquiet P _ h1 (Or.inr hmain.symm))
    | ok r =>
      obtain ⟨l, st1⟩ := r
      have e1 : P = st1 := by
        rw [← hP]
        simp [probed, hp0]
      subst e1
      cases l with
      | running =>
        simp only [hp0] at hmain
        exact weaken _ (Or.inl rfl) (hquiet P _ h1 (Or.inl hmain.symm))
      | notRunning =>
        simp only [hp0] at hmain
        by_cases hde : a.dir_was_empty = true
        · simp only [hde, Bool.not_true, Bool.false_eq_true, if_false] at hmain
          exact weaken _ (Or.inl rfl) (hlaunch P _ h1 hmain.symm)
        · simp only [hde, Bool.not_false, if_true] at hmain
          have h2 := backoff_holds env P _ h1
          have h3 := h2.of_kept (probe_kept env 1 _ h2.1)
          cases hp1 : probe env 1 (backoff env P) with
          | error st4 =>
            have e4 : probed env 1 (backoff env P) = st4 := by simp [probed, hp1]
            rw [e4] at h3
            simp only [hp1] at hmain
            exact weaken _ (Or.inr rfl) (hquiet st4 _ h3 (Or.inr hmain.symm))
          | ok r4 =>
            obtain ⟨l4, st4⟩ := r4
            have e4 : probed env 1 (backoff env P) = st4 := by simp [probed, hp1]
            rw [e4] at h3
            cases l4 with
            | running =>
              simp only [hp1] at hmain
              exact weaken _ (Or.inr rfl) (hquiet st4 _ h3 (Or.inl hmain.symm))
            | notRunning =>
              simp only [hp1] at hmain
              by_cases hs : (st4.w.stat st4.cwd (longName a.ts a.i)).isNone = true
              · simp only [hs, if_true] at hmain
                exact weaken _ (Or.inr rfl) (hquiet st4 _ h3 (Or.inl hmain.symm))
              · simp only [hs, if_false] at hmain
                exact weaken _ (Or.inr rfl) (hlaunch st4 _ h3 hmain.symm)
  · have hup1 : env.chdirUp = false := by simpa using hup
    simp only [hup1, Bool.not_false, if_true, Option.some.injEq] at hmain
    have hc : cleansUp env o := Or.inl hup1
    refine ⟨fun _ => ?_, fun hn => absurd hc hn⟩
    rw [← hmain]
    simp [exit1, St.unlink, St.setW, St.log, World.unlink, hw.2.2.1, resolve_visible_mqueue,
      World.setDir, World.dir, Dir.get_del_same]

/-- C5 at a concrete run: `fork` fails after `hello` was admitted, and the message
is gone at exit. -/
theorem own_message_cleanup_witness :
    (enqueue noForkEnv emptyWorld = Except.ok (admitted noForkEnv emptyWorld) ∧
      main noForkEnv emptyWorld = some (outcomeOf noForkEnv emptyWorld)) ∧
    (outcomeOf noForkEnv emptyWorld).st.w.mqueue.get
      (visibleName (admitted noForkEnv emptyWorld).ts (admitted noForkEnv emptyWorld).i) = none :=
  ⟨⟨rfl, rfl⟩,
    (own_message_cleanup noForkEnv emptyWorld (admitted noForkEnv emptyWorld)
      (outcomeOf noForkEnv emptyWorld) rfl rfl).1 (Or.inr ⟨rfl, Or.inr (Or.inl rfl)⟩)⟩

/-- C5 as stated fails: in each of the four runs `hello` is admitted as
`mail.01234567890.00000`, then `chdir( ".." )` fails, `argv[0]` has no `-wrapper`,
`fork` fails, or `execv` fails in the child, and at exit the queue directory is
empty again. -/
theorem admitted_message_deleted_after_failure :
    ((admitted noChdirEnv emptyWorld).st.w.mqueue
        = [("mail.01234567890.00000".toList, "hello".toList)] ∧
      (main noChdirEnv emptyWorld).map (fun o => (o.status, o.child, o.st.w.mqueue))
        = some (1, none, [])) ∧
    ((admitted noSuffixEnv emptyWorld).st.w.mqueue
        = [("mail.01234567890.00000".toList, "hello".toList)] ∧
      (main noSuffixEnv emptyWorld).map (fun o => (o.status, o.child, o.st.w.mqueue))
        = some (1, none, [])) ∧
    ((admitted noForkEnv emptyWorld).st.w.mqueue
        = [("mail.01234567890.00000".toList, "hello".toList)] ∧
      (main noForkEnv emptyWorld).map (fun o => (o.status, o.child, o.st.w.mqueue))
        = some (1, none, [])) ∧
    ((admitted noExecEnv emptyWorld).st.w.mqueue
        = [("mail.01234567890.00000".toList, "hello".toList)] ∧
      (main noExecEnv emptyWorld).map (fun o => (o.status, o.child, o.st.w.mqueue))
        = some (0, some 1, [])) := by
  refine ⟨⟨rfl, rfl⟩, ⟨rfl, rfl⟩, ⟨rfl, rfl⟩, ⟨rfl, rfl⟩⟩

/-! ## C6: the visible file is complete -/

/-- C6: when standard input delivers the chunks `chunks` (each of 1 to 4096 bytes)
and then ends, and the admission succeeds, the visible file holds exactly their
concatenation; in every state of the world the run went through the visible name
is absent or holds the whole input; and the run consists of the exclusive create,
one full-length write per chunk, the close and then the rename. -/
theorem visible_file_is_complete (env : Env) (w : World) (a : Admitted) (chunks : List Bytes)
    (hsize : ∀ c ∈ chunks, 0 < c.length ∧ c.length ≤ 4096)
    (hin : env.stdin = chunks.map ReadRes.data)
    (hadm : enqueue env w = Except.ok a) :
    a.st.w.mqueue.get (visibleName a.ts a.i) = some chunks.flatten ∧
    a.st.w.mqueue.get (hiddenName a.ts a.i) = none ∧
    (∀ s ∈ a.st.snaps, s.mqueue.get (visibleName a.ts a.i) = none ∨
      s.mqueue.get (visibleName a.ts a.i) = some chunks.flatten) ∧
    a.st.trace = Ev.create (hiddenName a.ts a.i) ::
      (chunks.map (fun c => Ev.write (hiddenName a.ts a.i) c.length) ++
        [Ev.close, Ev.rename (hiddenName a.ts a.i) (visibleName a.ts a.i)]) := by
  obtain ⟨st3, st4, -, -, hs, hc, hr⟩ := enqueue_cases env w a hadm
  obtain ⟨-, -, hvis, -⟩ := search_spec env _ _ _ _ _ _ hs
  have h3 := search_cases env _ _ _ _ _ _ hs
  have hne : visibleName a.ts a.i ≠ hiddenName a.ts a.i := (hidden_ne_visible _ _ _ _).symm
  have hacc : st3.w.mqueue.get (hiddenName a.ts a.i) = some [] := by
    rw [h3]
    simp [St.setW, Dir.get_put_same]
  have hun : st3.Unpublished (visibleName a.ts a.i) := by
    rw [h3]
    constructor
    · simp only [St.setW, St.log]
      rw [Dir.get_put_other _ _ _ _ hne]
      exact hvis
    · intro s hs
      simp only [St.setW, St.log, List.mem_append, List.mem_singleton, List.mem_cons,
        List.not_mem_nil, or_false] at hs
      rcases hs with hs | hs
      · rw [hs]
        exact hvis
      · rw [hs]
        simp only
        rw [Dir.get_put_other _ _ _ _ hne]
        exact hvis
  rw [hin] at hc
  obtain ⟨c1, c2, c3⟩ := copyStdin_spec env _ _ chunks 0 st3 st4 [] hne
    (fun c hc => (hsize c hc).1) hacc hun hc
  obtain ⟨c, hget, -, h6⟩ := renameIn_cases env _ _ _ _ hr
  have hceq : c = chunks.flatten := by
    simp only [St.log] at hget
    rw [c1] at hget
    simpa using hget.symm
  subst hceq
  rw [h6]
  refine ⟨?_, ?_, ?_, ?_⟩
  · simp [St.setW, Dir.get_put_same]
  · simp only [St.setW, St.log]
    rw [Dir.get_put_other _ _ _ _ hne.symm, Dir.get_del_same]
  · intro s hs
    simp only [St.setW, St.log, List.mem_append, List.mem_singleton] at hs
    rcases hs with hs | hs
    · exact Or.inl (c2.2 s hs)
    · right
      rw [hs]
      simp [Dir.get_put_same]
  · simp only [St.setW, St.log, c3, h3]
    simp

/-- C6 at a concrete run: `hello` arrives in the chunks `he` and `llo`. -/
theorem visible_file_is_complete_witness :
    ((∀ c ∈ ["he".toList, "llo".toList], 0 < c.length ∧ c.length ≤ 4096) ∧
      chunkedEnv.stdin = ["he".toList, "llo".toList].map ReadRes.data ∧
      enqueue chunkedEnv emptyWorld = Except.ok (admitted chunkedEnv emptyWorld)) ∧
    (admitted chunkedEnv emptyWorld).st.w.mqueue.get
        (visibleName (admitted chunkedEnv emptyWorld).ts (admitted chunkedEnv emptyWorld).i)
      = some ["he".toList, "llo".toList].flatten :=
  ⟨⟨by decide, rfl, rfl⟩,
    (visible_file_is_complete chunkedEnv emptyWorld (admitted chunkedEnv emptyWorld)
      ["he".toList, "llo".toList] (by decide) rfl rfl).1⟩

/-! ## C7: the name that is created was free -/

/-- C7: when the name search, started at disambiguator 0 in any state of the queue
directory, ends with the exclusive create of `.mail.<timestamp>.<n>`, neither
that hidden name nor the visible name `mail.<timestamp>.<n>` was in the
directory, and every smaller disambiguator was passed over because its visible
or its hidden form was there; the search leaves the directory with the new empty
hidden file and nothing else changed. -/
theorem search_creates_free_name (env : Env) (ts fuel : Nat) (st : St) (n : Nat) (st1 : St)
    (h : search env ts fuel 0 st = Search.created n st1) :
    st.w.mqueue.get (hiddenName ts n) = none ∧
    st.w.mqueue.get (visibleName ts n) = none ∧
    (∀ j, j < n →
      (st.w.mqueue.get (visibleName ts j)).isSome = true ∨
      (st.w.mqueue.get (hiddenName ts j)).isSome = true) ∧
    st1.w.mqueue = st.w.mqueue.put (hiddenName ts n) [] ∧
    st1.trace = st.trace ++ [Ev.create (hiddenName ts n)] := by
  obtain ⟨-, h2, h3, h4⟩ := search_spec env ts fuel 0 st n st1 h
  have h5 := search_cases env ts fuel 0 st n st1 h
  refine ⟨h2, h3, fun j hj => h4 j (Nat.zero_le j) hj, ?_, ?_⟩
  · rw [h5]
    rfl
  · rw [h5]
    rfl

/-- C7 at a concrete directory: disambiguators 0 and 1 are taken, 2 is created. -/
theorem search_creates_free_name_witness :
    search helloEnv 1234567890 3 0 (searchStart twoTakenWorld)
      = Search.created 2
          (((searchStart twoTakenWorld).log (Ev.create (hiddenName 1234567890 2))).setW
            { twoTakenWorld with
              mqueue := twoTakenWorld.mqueue.put (hiddenName 1234567890 2) [] }) ∧
    twoTakenWorld.mqueue.get (hiddenName 1234567890 2) = none ∧
    twoTakenWorld.mqueue.get (visibleName 1234567890 2) = none :=
  ⟨rfl,
    (search_creates_free_name helloEnv 1234567890 3 (searchStart twoTakenWorld) 2 _ rfl).1,
    (search_creates_free_name helloEnv 1234567890 3 (searchStart twoTakenWorld) 2 _ rfl).2.1⟩

/-! ## C8: concurrent admissions -/

/-- C8: two writers start in the same second on an empty queue with the inputs
`first` and `second`.  The second writer finds `mail.01234567890.00000` absent;
the first writer then creates `.mail.01234567890.00000`, writes, closes and
renames it to `mail.01234567890.00000`; the exclusive create of the second writer
now succeeds under the same hidden name, and its rename replaces the message
of the first writer.  Both writers end published under disambiguator 0 and the
queue holds one file, with the content `second`.  Run alone, the first writer
leaves the world that the sequential admission leaves. -/
theorem concurrent_writers_collide :
    (runWriters (overtaking.take 7) emptyWorld twoWriters).1.mqueue
      = [("mail.01234567890.00000".toList, "first".toList)] ∧
    ((runWriters (overtaking.take 7) emptyWorld twoWriters).2.map (fun wr => wr.pc))
      = [Pc.published 0, Pc.openExcl 0] ∧
    (runWriters overtaking emptyWorld twoWriters).1.mqueue
      = [("mail.01234567890.00000".toList, "second".toList)] ∧
    ((runWriters overtaking emptyWorld twoWriters).2.map (fun wr => wr.pc))
      = [Pc.published 0, Pc.published 0] ∧
    (runWriters [0, 0, 0, 0, 0, 0] emptyWorld [Writer.start firstEnv emptyWorld]).1
      = (admitted firstEnv emptyWorld).st.w ∧
    ((runWriters [0, 0, 0, 0, 0, 0] emptyWorld [Writer.start firstEnv emptyWorld]).2.map
        (fun wr => wr.st.trace))
      = [(admitted firstEnv emptyWorld).st.trace] := by
  refine ⟨rfl, rfl, rfl, rfl, rfl, rfl⟩

/-! ## C9: a marker naming a dead process -/

/-- C9: the marker holds the decimal text `47` of a process that does not exist
(`kill( 47, 0 )` fails with `ESRCH`), and `buf` held `xx11` before the read: after
the two bytes of the marker are read the array starts with `4711`, `atoi` yields
4711, that process is alive, and the probe answers Running and leaves the marker
in place; `main` returns 0 with the verdict Skip.  When the array is followed by
a zero byte (`helloEnv`) the same marker is pruned. -/
theorem dead_pid_marker_kept_on_stale_buffer :
    (kill someProcs 47 = KillRes.ESRCH ∧
      readInto (staleEnv.stale 0) "47".toList 2 = ['4', '7', '1', '1', Char.ofNat 10] ∧
      probedPid staleEnv 0 "47".toList = 4711 ∧
      kill someProcs 4711 = KillRes.ok ∧
      probe staleEnv 0 (firstProbeState staleEnv "47".toList)
        = Except.ok (Liveness.running, probed staleEnv 0 (firstProbeState staleEnv "47".toList)) ∧
      (probed staleEnv 0 (firstProbeState staleEnv "47".toList)).w.home.get markerName
        = some "47".toList ∧
      (main staleEnv (markedWorld "47".toList)).map (fun o => (o.status, o.decision))
        = some (0, some Decision.skip)) ∧
    (probe helloEnv 0 (firstProbeState helloEnv "47".toList)
        = Except.ok (Liveness.notRunning,
            probed helloEnv 0 (firstProbeState helloEnv "47".toList)) ∧
      (probed helloEnv 0 (firstProbeState helloEnv "47".toList)).w.home.get markerName
        = none) := by
  refine ⟨⟨by decide, by decide, by decide, by decide, rfl, rfl, rfl⟩, ⟨rfl, rfl⟩⟩

/-! ## C10: the backoff duration -/

/-- Below the load at which the sum reaches `2 ^ 31` the duration is monotone in
the load sample and at least 20 (for an `unsigned long` of at least 31 bits). -/
theorem waittime_in_range (bits a b : Nat) (hbits : 31 ≤ bits) (hab : a ≤ b)
    (hb : b < 2 ^ bits) (hr : (b >>> (SI_LOAD_SHIFT - 2)) * 6 + 20 < 2 ^ 31) :
    waittime bits a ≤ waittime bits b ∧ 20 ≤ waittime bits a := by
  have ha : a < 2 ^ bits := lt_of_le_of_lt hab hb
  have hshift : a >>> (SI_LOAD_SHIFT - 2) ≤ b >>> (SI_LOAD_SHIFT - 2) := by
    simp only [Nat.shiftRight_eq_div_pow]
    exact Nat.div_le_div_right hab
  have hpow : 2 ^ 31 ≤ 2 ^ bits := Nat.pow_le_pow_right (by decide) hbits
  have ea : ((a % 2 ^ bits) >>> (SI_LOAD_SHIFT - 2) * 6 + 20) % 2 ^ bits
      = a >>> (SI_LOAD_SHIFT - 2) * 6 + 20 := by
    rw [Nat.mod_eq_of_lt ha, Nat.mod_eq_of_lt (by omega)]
  have eb : ((b % 2 ^ bits) >>> (SI_LOAD_SHIFT - 2) * 6 + 20) % 2 ^ bits
      = b >>> (SI_LOAD_SHIFT - 2) * 6 + 20 := by
    rw [Nat.mod_eq_of_lt hb, Nat.mod_eq_of_lt (by omega)]
  unfold waittime
  rw [ea, eb, toInt32_small _ (by omega), toInt32_small _ hr]
  constructor
  · exact_mod_cast (by omega : a >>> (SI_LOAD_SHIFT - 2) * 6 + 20
      ≤ b >>> (SI_LOAD_SHIFT - 2) * 6 + 20)
  · exact_mod_cast (by omega : 20 ≤ a >>> (SI_LOAD_SHIFT - 2) * 6 + 20)

/-- With an `unsigned long` of 32 bits the duration is monotone in the load sample
and at least 20 for every sample. -/
theorem waittime_32 (a b : Nat) (hab : a ≤ b) (hb : b < 2 ^ 32) :
    waittime 32 a ≤ waittime 32 b ∧ 20 ≤ waittime 32 a := by
  refine waittime_in_range 32 a b (by decide) hab hb ?_
  have h1 : b >>> (SI_LOAD_SHIFT - 2) ≤ 262143 := by
    simp only [Nat.shiftRight_eq_div_pow, SI_LOAD_SHIFT]
    norm_num at hb ⊢
    omega
  norm_num
  omega

/-- C10: with an `unsigned long` of 64 bits, at the load sample `357913938 * 2^14`
the sum `(loads[0] >> 14)*6 + 20` is `2 ^ 31`, which stored in an `int` is
`-2147483648`: the duration is neither at least 20 nor at least the duration
computed for load 0, and `sleep` receives 2147483648. -/
theorem waittime_wraps_at_huge_load :
    waittime 64 0 = 20 ∧
    (hugeLoad >>> (SI_LOAD_SHIFT - 2)) * 6 + 20 = 2 ^ 31 ∧
    waittime 64 hugeLoad = -2147483648 ∧
    ¬ (waittime 64 0 ≤ waittime 64 hugeLoad) ∧
    ¬ (20 ≤ waittime 64 hugeLoad) ∧
    toUInt32 (waittime 64 hugeLoad) = 2147483648 := by
  decide

/-! ## The derivation of the daemon path -/

/-- The last `-` of a string that ends in `-wrapper` is the one of the suffix. -/
theorem strrchr_suffix (s : Bytes) : strrchr (s ++ wrapperSuffix) '-' = some s.length := by
  induction s with
  | nil => decide
  | cons x r ih =>
    have ih1 : strrchr (r.append wrapperSuffix) '-' = some r.length := ih
    simp only [List.cons_append, strrchr, List.length_cons]
    rw [ih1]

/-- A name that ends in `-wrapper` yields what stands before the suffix. -/
theorem daemonPath_suffix (s : Bytes) : daemonPath (s ++ wrapperSuffix) = some s := by
  simp [daemonPath, strrchr_suffix]

/-- When a path is derived, `argv[0]` is that path followed by `-wrapper`. -/
theorem daemonPath_some (argv0 p : Bytes) (h : daemonPath argv0 = some p) :
    argv0 = p ++ wrapperSuffix := by
  unfold daemonPath at h
  split at h
  · simp at h
  · rename_i k hk
    split at h
    · simp at h
    · rename_i hd
      simp only [ne_eq, not_not] at hd
      simp only [Option.some.injEq] at h
      rw [← h, ← hd, List.take_append_drop]

/-- A name that does not end in `-wrapper` yields no path. -/
theorem daemonPath_none (argv0 : Bytes) (h : ¬ wrapperSuffix <:+ argv0) :
    daemonPath argv0 = none := by
  cases hp : daemonPath argv0 with
  | none => rfl
  | some p =>
    exfalso
    apply h
    rw [daemonPath_some argv0 p hp]
    exact List.suffix_append p wrapperSuffix

/-! ## The first steps of `main` -/

/-- After the first steps the admission is the name search, the copy loop and the
rename. -/
theorem enqueue_of_preamble (env : Env) (w : World) (h : preamble env = true) :
    enqueue env w =
      match search env (env.now % 2 ^ 32) (w.mqueue.length + 1) 0 (searchStart w) with
      | Search.diverged => Except.error none
      | Search.failed _ st3 => Except.error (some (fatal st3))
      | Search.created i st3 =>
        match copyStdin env (hiddenName (env.now % 2 ^ 32) i) env.stdin 0 st3 with
        | Except.error st4 => Except.error (some (exit1 st4))
        | Except.ok st4 =>
          match renameIn env (st4.log Ev.close) (hiddenName (env.now % 2 ^ 32) i)
              (visibleName (env.now % 2 ^ 32) i) with
          | none =>
            Except.error (some (exit1
              (((st4.log Ev.close).log Ev.diag).unlink (hiddenName (env.now % 2 ^ 32) i))))
          | some st6 =>
            Except.ok { dir_was_empty := dirWasEmpty (readdir w), ts := env.now % 2 ^ 32,
                        i := i, st := st6 } := by
  unfold preamble at h
  unfold enqueue
  cases hh : env.HOME with
  | none => simp [hh] at h
  | some home =>
    simp only [hh, Bool.and_eq_true, Bool.not_eq_true', beq_eq_false_iff_ne, ne_eq] at h
    obtain ⟨⟨⟨h1, h2⟩, h3⟩, h4⟩ := h
    simp only [h1, h2, h3, h4, if_false, Bool.not_true, Bool.false_eq_true, searchStart]

/-- When one of the first steps fails the run ends with a diagnostic and exit
status 1, and the world is untouched. -/
theorem enqueue_no_preamble (env : Env) (w : World) (h : preamble env = false) :
    ∃ st, enqueue env w = Except.error (some (fatal st)) ∧ st.w = w ∧ st.trace = [] := by
  unfold preamble at h
  unfold enqueue
  cases hh : env.HOME with
  | none => exact ⟨_, rfl, rfl, rfl⟩
  | some home =>
    simp only [hh] at h
    by_cases h1 : home = []
    · simp only [h1, if_true]
      exact ⟨_, rfl, rfl, rfl⟩
    · by_cases h2 : env.chdirHome = true
      · by_cases h3 : env.chdirQueue = true
        · by_cases h4 : env.opendir = true
          · simp [h1, h2, h3, h4] at h
          · simp only [h1, h2, h3, h4, if_false, Bool.not_true, Bool.false_eq_true,
              Bool.not_false, if_true]
            exact ⟨_, rfl, rfl, rfl⟩
        · simp only [h1, h2, h3, if_false, Bool.not_true, Bool.false_eq_true,
            Bool.not_false, if_true]
          exact ⟨_, rfl, rfl, rfl⟩
      · simp only [h1, h2, if_false, Bool.not_false, if_true]
        exact ⟨_, rfl, rfl, rfl⟩

/-- An admission that fails ends with exit status 1 and without a verdict. -/
theorem enqueue_error (env : Env) (w : World) (o : Outcome)
    (he : enqueue env w = Except.error (some o)) :
    o.status = 1 ∧ o.decision = none ∧ o.child = none := by
  cases hp : preamble env with
  | false =>
    obtain ⟨st, h1, -, -⟩ := enqueue_no_preamble env w hp
    rw [h1] at he
    simp only [Except.error.injEq, Option.some.injEq] at he
    subst he
    simp [fatal, exit1]
  | true =>
    rw [enqueue_of_preamble env w hp] at he
    split at he
    · simp at he
    · simp only [Except.error.injEq, Option.some.injEq] at he
      subst he
      simp [fatal, exit1]
    · split at he
      · simp only [Except.error.injEq, Option.some.injEq] at he
        subst he
        simp [exit1]
      · split at he
        · simp only [Except.error.injEq, Option.some.injEq] at he
          subst he
          simp [exit1]
        · simp at he

/-! ## Nothing is started before the launcher -/

/-- The liveness probe neither forks nor executes anything. -/
theorem probed_unlaunched (env : Env) (k : Nat) (st : St) (h : st.Unlaunched) :
    (probed env k st).Unlaunched := by
  obtain ⟨hcwd, htr⟩ := h
  unfold probed
  cases hp : probe env k st with
  | error st1 =>
    have := probe_error env k st st1 hp
    subst this
    refine ⟨hcwd, ?_⟩
    intro e he
    simp only [St.log, List.mem_append, List.mem_singleton] at he
    rcases he with he | he
    · exact htr e he
    · subst he
      rfl
  | ok r =>
    obtain ⟨l, st1⟩ := r
    rcases probe_cases env k st st1 l hp with ⟨-, -, h1⟩ | ⟨c, -, -, -, h1⟩ | ⟨c, -, -, -, h1⟩
    · subst h1
      exact ⟨hcwd, htr⟩
    · subst h1
      refine ⟨hcwd, ?_⟩
      intro e he
      simp only [St.log, List.mem_append, List.mem_singleton] at he
      rcases he with he | he
      · exact htr e he
      · subst he
        rfl
    · subst h1
      refine ⟨by simp [St.unlink, St.setW, St.log, hcwd], ?_⟩
      intro e he
      simp only [St.unlink, St.setW, St.log, List.mem_append, List.mem_singleton] at he
      rcases he with (he | he) | he
      · exact htr e he
      · subst he
        rfl
      · subst he
        rfl

/-- The backoff neither forks nor executes anything. -/
theorem backoff_unlaunched (env : Env) (st : St) (h : st.Unlaunched) :
    (backoff env st).Unlaunched := by
  obtain ⟨hcwd, htr⟩ := h
  refine ⟨by simp [backoff, St.setW, St.log, hcwd], ?_⟩
  intro e he
  simp only [backoff, St.setW, St.log, List.mem_append, List.mem_singleton] at he
  rcases he with (he | he) | he
  · exact htr e he
  · subst he
    rfl
  · subst he
    rfl

/-- A run that ends with the verdict Spawn is a run of the launcher, entered after
a successful admission in a state in which nothing was forked or executed. -/
theorem main_spawn (env : Env) (w : World) (o : Outcome) (hmain : main env w = some o)
    (hd : o.decision = some Decision.spawn) :
    ∃ a st, enqueue env w = Except.ok a ∧ env.chdirUp = true ∧ st.Unlaunched ∧
      o = launch env (longName a.ts a.i) st := by
  unfold main at hmain
  cases he : enqueue env w with
  | error r =>
    simp only [he] at hmain
    subst hmain
    rw [(enqueue_error env w o he).2.1] at hd
    simp at hd
  | ok a =>
    simp only [he] at hmain
    have hw := enqueue_writing env w a he
    have h0 : St.Unlaunched { a.st with cwd := Cwd.home } := by
      refine ⟨rfl, ?_⟩
      intro e hm
      have := hw.2.2.2 e hm
      cases e <;> simp_all [Ev.isFileOp, Ev.isLaunch]
    by_cases hup : env.chdirUp = true
    · simp only [hup, Bool.not_true, Bool.false_eq_true, if_false, Option.some.injEq] at hmain
      have h1 := probed_unlaunched env 0 _ h0
      unfold activate at hmain
      cases hp0 : probe env 0 { a.st with cwd := Cwd.home } with
      | error st1 =>
        simp only [hp0] at hmain
        subst hmain
        simp [exit1] at hd
      | ok r =>
        obtain ⟨l, st1⟩ := r
        have e1 : probed env 0 { a.st with cwd := Cwd.home } = st1 := by simp [probed, hp0]
        rw [e1] at h1
        simp only [hp0] at hmain
        cases l with
        | running =>
          simp only at hmain
          subst hmain
          simp [skip] at hd
        | notRunning =>
          simp only at hmain
          by_cases hde : a.dir_was_empty = true
          · simp only [hde, Bool.not_true, Bool.false_eq_true, if_false] at hmain
            exact ⟨a, st1, rfl, hup, h1, hmain.symm⟩
          · simp only [hde, Bool.not_false, if_true] at hmain
            have h3 := probed_unlaunched env 1 _ (backoff_unlaunched env st1 h1)
            cases hp1 : probe env 1 (backoff env st1) with
            | error st4 =>
              simp only [hp1] at hmain
              subst hmain
              simp [exit1] at hd
            | ok r4 =>
              obtain ⟨l4, st4⟩ := r4
              have e4 : probed env 1 (backoff env st1) = st4 := by simp [probed, hp1]
              rw [e4] at h3
              simp only [hp1] at hmain
              cases l4 with
              | running =>
                simp only at hmain
                subst hmain
                simp [skip] at hd
              | notRunning =>
                simp only at hmain
                by_cases hs : (st4.w.stat st4.cwd (longName a.ts a.i)).isNone = true
                · simp only [hs, if_true] at hmain
                  subst hmain
                  simp [skip] at hd
                · simp only [hs, if_false] at hmain
                  exact ⟨a, st4, rfl, hup, h3, hmain.symm⟩
    · have hup1 : env.chdirUp = false := by simpa using hup
      simp only [hup1, Bool.not_false, if_true, Option.some.injEq] at hmain
      subst hmain
      simp [exit1] at hd

/-- The launcher with a derived path and a successful `fork` makes one `execv`: of
that path, with the argument vector `argv` of the wrapper itself. -/
theorem launch_execv (env : Env) (long : Bytes) (st : St) (p : Bytes)
    (hst : st.Unlaunched) (hp : daemonPath env.argv0 = some p) (hf : env.fork = true) :
    Ev.execv p (env.argv0 :: env.args) ∈ (launch env long st).st.trace ∧
    ∀ q v, Ev.execv q v ∈ (launch env long st).st.trace →
      q = p ∧ v = env.argv0 :: env.args := by
  have hno : ∀ q v, Ev.execv q v ∉ st.trace := by
    intro q v hm
    have := hst.2 _ hm
    simp [Ev.isLaunch] at this
  unfold launch
  by_cases h1 : env.setreuid = true <;> by_cases h4 : env.execv = true <;>
    simp [hp, hf, h1, h4, St.unlink, St.setW, St.log, hno]

/-! ## C11: what the daemon is started with -/

/-- C11, as amended: in every run of buildd-mail-wrapper that ends with the
verdict Spawn, with an `argv[0]` that ends in `-wrapper` and a successful `fork`,
the daemon is started by one `execv` of the derived path whose argument vector
is `argv` of the wrapper itself, unchanged; no other `execv` is made, so the name
of the admitted message is passed only if it already was among the arguments. -/
theorem spawn_passes_own_argv (env : Env) (w : World) (o : Outcome) (p : Bytes)
    (hmain : main env w = some o) (hd : o.decision = some Decision.spawn)
    (hp : daemonPath env.argv0 = some p) (hf : env.fork = true) :
    Ev.execv p (env.argv0 :: env.args) ∈ o.st.trace ∧
    ∀ q v, Ev.execv q v ∈ o.st.trace → q = p ∧ v = env.argv0 :: env.args := by
  obtain ⟨a, st, -, -, hst, ho⟩ := main_spawn env w o hmain hd
  rw [ho]
  exact launch_execv env _ st p hst hp hf

/-- C11 at a concrete run: `hello` arrives at an empty queue without a marker. -/
theorem spawn_passes_own_argv_witness :
    (main helloEnv emptyWorld = some (outcomeOf helloEnv emptyWorld) ∧
      (outcomeOf helloEnv emptyWorld).decision = some Decision.spawn ∧
      daemonPath helloEnv.argv0 = some "/usr/bin/buildd-mail".toList ∧
      helloEnv.fork = true) ∧
    Ev.execv "/usr/bin/buildd-mail".toList (helloEnv.argv0 :: helloEnv.args)
      ∈ (outcomeOf helloEnv emptyWorld).st.trace :=
  ⟨⟨rfl, rfl, by decide, rfl⟩,
    (spawn_passes_own_argv helloEnv emptyWorld (outcomeOf helloEnv emptyWorld)
      "/usr/bin/buildd-mail".toList rfl rfl (by decide) rfl).1⟩

/-- C11 as stated fails: `hello` arrives at an empty queue without a marker and is
admitted as `mail.01234567890.00000`; the verdict is Spawn and the one `execv` of
the run starts `/usr/bin/buildd-mail` with the argument vector
`["/usr/bin/buildd-mail-wrapper"]`, in which the name of the message (with or
without `mqueue/`) does not occur. -/
theorem spawn_does_not_pass_filename :
    (outcomeOf helloEnv emptyWorld).decision = some Decision.spawn ∧
    (outcomeOf helloEnv emptyWorld).st.w.mqueue
      = [("mail.01234567890.00000".toList, "hello".toList)] ∧
    (outcomeOf helloEnv emptyWorld).st.trace.filter Ev.isLaunch
      = [Ev.fork,
         Ev.execv "/usr/bin/buildd-mail".toList ["/usr/bin/buildd-mail-wrapper".toList]] ∧
    "mail.01234567890.00000".toList ∉ ["/usr/bin/buildd-mail-wrapper".toList] ∧
    "mqueue/mail.01234567890.00000".toList ∉ ["/usr/bin/buildd-mail-wrapper".toList] := by
  refine ⟨rfl, rfl, rfl, by decide, by decide⟩

/-- The sibling rbuilder-wrapper does pass the name of its file: started as
`/usr/bin/rbuilder-wrapper` by process 100, it executes `/usr/bin/rbuilder` with
the arguments `/usr/bin/rbuilder` and `mail.00100`. -/
theorem rbuilder_passes_filename :
    (rbuilderMain { helloEnv with argv0 := "/usr/bin/rbuilder-wrapper".toList }
        emptyWorld).st.trace.filter Ev.isLaunch
      = [Ev.fork,
         Ev.execv "/usr/bin/rbuilder".toList ["/usr/bin/rbuilder".toList, "mail.00100".toList]] := by
  rfl

/-! ## C12: the suffix `-wrapper` -/

/-- C12: the derivation of the daemon path strips exactly `-wrapper`: for every
string `s`, `argv[0] = s ++ "-wrapper"` yields the path `s`; and when `argv[0]`
does not end in `-wrapper` no path is derived, and the launchers of
buildd-mail-wrapper and of rbuilder-wrapper print the diagnostic, unlink the file
and exit with status 1: after `setreuid` and `umask` the run has no fork and no
exec. -/
theorem wrapper_suffix_is_stripped (s : Bytes) (env : Env) (long_filename filename : Bytes)
    (st : St) (h : ¬ wrapperSuffix <:+ env.argv0) :
    daemonPath (s ++ wrapperSuffix) = some s ∧
    daemonPath env.argv0 = none ∧
    ((launch env long_filename st).status = 1 ∧ (launch env long_filename st).child = none ∧
      (launch env long_filename st).st.trace
        = st.trace ++ (if env.setreuid then [Ev.setreuid] else [Ev.setreuid, Ev.diag])
            ++ [Ev.umask, Ev.diag, Ev.unlink long_filename]) ∧
    ((rbLaunch env filename st).status = 1 ∧ (rbLaunch env filename st).child = none ∧
      (rbLaunch env filename st).st.trace
        = st.trace ++ (if env.setreuid then [Ev.setreuid] else [Ev.setreuid, Ev.diag])
            ++ [Ev.umask, Ev.diag, Ev.unlink filename]) := by
  have hn := daemonPath_none env.argv0 h
  refine ⟨daemonPath_suffix s, hn, ?_, ?_⟩
  · unfold launch
    by_cases h1 : env.setreuid = true <;> simp [hn, h1, St.unlink, St.setW, St.log]
  · unfold rbLaunch
    by_cases h1 : env.setreuid = true <;> simp [hn, h1, St.unlink, St.setW, St.log]

/-- C12 at a concrete run: the program is started as `/usr/bin/buildd-mail`. -/
theorem wrapper_suffix_is_stripped_witness :
    (¬ wrapperSuffix <:+ noSuffixEnv.argv0) ∧
    daemonPath ("/usr/bin/buildd-mail".toList ++ wrapperSuffix)
      = some "/usr/bin/buildd-mail".toList ∧
    daemonPath noSuffixEnv.argv0 = none :=
  ⟨by decide,
    (wrapper_suffix_is_stripped "/usr/bin/buildd-mail".toList noSuffixEnv
      (longName 1234567890 0) (rbFilename 100) (searchStart emptyWorld) (by decide)).1,
    (wrapper_suffix_is_stripped "/usr/bin/buildd-mail".toList noSuffixEnv
      (longName 1234567890 0) (rbFilename 100) (searchStart emptyWorld) (by decide)).2.1⟩

/-! ## A failed admission restores the world -/

/-- Writing an entry twice keeps the second content. -/
theorem Dir.put_put (d : Dir) (n a b : Bytes) : (d.put n a).put n b = d.put n b := by
  induction d with
  | nil => simp [Dir.put]
  | cons e r ih =>
    obtain ⟨k, v⟩ := e
    by_cases h : k = n
    · simp [Dir.put, h]
    · simp [Dir.put, h, ih]

/-- Removing an entry that was added gives the directory back. -/
theorem Dir.del_put (d : Dir) (n c : Bytes) (h : d.get n = none) : (d.put n c).del n = d := by
  induction d with
  | nil => simp [Dir.put, Dir.del]
  | cons e r ih =>
    obtain ⟨k, v⟩ := e
    by_cases hk : k = n
    · simp [Dir.get, hk] at h
    · simp only [Dir.get, hk, if_false] at h
      simp [Dir.put, Dir.del, hk, ih h]

/-- In the queue directory a hidden name names an entry of that directory. -/
theorem resolve_hidden_mqueue (ts i : Nat) :
    resolve Cwd.mqueue (hiddenName ts i) = some (Where.mqueue, hiddenName ts i) := by
  rw [hiddenName_eq]
  simp [resolve, mqueueSlash, List.isPrefixOf]

/-- The clean-up `unlink( filename )` of the copy loop restores the world. -/
theorem unlink_filling (st : St) (w : World) (name : Bytes) (h : st.Filling w name)
    (hres : resolve Cwd.mqueue name = some (Where.mqueue, name))
    (hnone : w.mqueue.get name = none) : (st.unlink name).Cleaned w name := by
  obtain ⟨hcwd, ⟨acc, hw⟩, hsn, htr⟩ := h
  have hwu : (st.unlink name).w = w := by
    simp only [St.unlink, St.setW, St.log, World.unlink, hcwd, hres, World.setDir, World.dir, hw]
    rw [Dir.del_put _ _ _ hnone]
  refine ⟨hwu, ?_, ?_, ?_⟩
  · intro s hs
    have : (st.unlink name).snaps = st.snaps ++ [(st.unlink name).w] := by
      simp [St.unlink, St.setW, St.log]
    rw [this, hwu] at hs
    simp only [List.mem_append, List.mem_singleton] at hs
    rcases hs with hs | hs
    · exact hsn s hs
    · exact Or.inl hs
  · simp [St.unlink, St.setW, St.log]
  · intro e he
    simp only [St.unlink, St.setW, St.log, List.mem_append, List.mem_singleton] at he
    rcases he with he | he
    · exact htr e he
    · subst he
      rfl

/-- Logging a diagnostic or a `close` keeps the state of the copy loop. -/
theorem St.Filling.log {st : St} {w : World} {name : Bytes} (h : st.Filling w name) (e : Ev)
    (he : e.isAdmission = true) : (st.log e).Filling w name := by
  obtain ⟨hcwd, hw, hsn, htr⟩ := h
  refine ⟨hcwd, hw, hsn, ?_⟩
  intro x hx
  simp only [St.log, List.mem_append, List.mem_singleton] at hx
  rcases hx with hx | hx
  · exact htr x hx
  · subst hx
    exact he

/-- A `write` keeps the state of the copy loop. -/
theorem writeChunk_filling (env : Env) (k : Nat) (name c : Bytes) (st : St) (w : World)
    (h : st.Filling w name) : (writeChunk env k name c st).2.Filling w name ∧
      (writeChunk env k name c st).1 = stored env k c := by
  obtain ⟨hcwd, ⟨acc, hw⟩, hsn, htr⟩ := h
  have hw2 : ∃ acc2, (writeChunk env k name c st).2.w
      = { w with mqueue := w.mqueue.put name acc2 } := by
    refine ⟨(((w.mqueue.put name acc).get name).getD [] ++ c.take (stored env k c)), ?_⟩
    simp only [writeChunk, St.setW, St.log, hw, stored, Dir.put_put]
  refine ⟨⟨hcwd, hw2, ?_, ?_⟩, rfl⟩
  · intro s hs
    have : (writeChunk env k name c st).2.snaps
        = st.snaps ++ [(writeChunk env k name c st).2.w] := by
      simp [writeChunk, St.setW, St.log]
    rw [this] at hs
    simp only [List.mem_append, List.mem_singleton] at hs
    rcases hs with hs | hs
    · exact hsn s hs
    · obtain ⟨acc2, h2⟩ := hw2
      exact Or.inr ⟨acc2, hs.trans h2⟩
  · intro e he
    simp only [writeChunk, St.setW, St.log, List.mem_append, List.mem_singleton] at he
    rcases he with he | he
    · exact htr e he
    · subst he
      rfl

/-- The copy loop ends in its error exit exactly when a read fails or a write is
short; it then leaves the world as it was before the hidden file was created.
Otherwise it leaves the world with the hidden file only. -/
theorem copyStdin_filling (env : Env) (name : Bytes) (rs : List ReadRes) (k : Nat) (st : St)
    (w : World) (h : st.Filling w name)
    (hres : resolve Cwd.mqueue name = some (Where.mqueue, name))
    (hnone : w.mqueue.get name = none) :
    (copyFails env rs k = true ∧
      ∃ st1, copyStdin env name rs k st = Except.error st1 ∧ st1.Cleaned w name) ∨
    (copyFails env rs k = false ∧
      ∃ st1, copyStdin env name rs k st = Except.ok st1 ∧ st1.Filling w name) := by
  induction rs generalizing k st with
  | nil => exact Or.inr ⟨rfl, st, rfl, h⟩
  | cons r rest ih =>
    cases r with
    | fail =>
      refine Or.inl ⟨rfl, _, rfl, ?_⟩
      exact unlink_filling _ w name ((h.log Ev.diag rfl).log Ev.close rfl) hres hnone
    | data c =>
      by_cases hc : c.length = 0
      · refine Or.inr ⟨by simp [copyFails, hc], st, by simp [copyStdin, hc], h⟩
      · obtain ⟨hf, hm⟩ := writeChunk_filling env k name c st w h
        by_cases hfull : stored env k c = c.length
        · have e1 : copyStdin env name (ReadRes.data c :: rest) k st
              = copyStdin env name rest (k + 1) (writeChunk env k name c st).2 := by
            rw [copyStdin]
            simp [hc, hm, hfull]
          have e2 : copyFails env (ReadRes.data c :: rest) k = copyFails env rest (k + 1) := by
            simp [copyFails, hc, hfull]
          rw [e1, e2]
          exact ih (k + 1) _ hf
        · refine Or.inl ⟨by simp [copyFails, hc, hfull],
            ((((writeChunk env k name c st).2.log Ev.diag).log Ev.close).unlink name), ?_, ?_⟩
          · rw [copyStdin]
            simp only [hc, if_false, hm, ne_eq, hfull, not_false_eq_true, if_true]
          · exact unlink_filling _ w name ((hf.log Ev.diag rfl).log Ev.close rfl) hres hnone

/-- A failed `rename` changes nothing. -/
theorem renameIn_fails (env : Env) (st : St) (old new : Bytes) (h : env.rename = false) :
    renameIn env st old new = none := by
  unfold renameIn
  split
  · rfl
  · simp [h]

/-- When the hidden file was created and then the copy loop or the rename fails,
the run ends in `exit( 1 )` in a state in which the world is restored. -/
theorem failed_admission_outcome (env : Env) (w : World) (i : Nat) (st3 : St)
    (hpre : preamble env = true)
    (hs : search env (env.now % 2 ^ 32) (w.mqueue.length + 1) 0 (searchStart w)
      = Search.created i st3)
    (hfail : copyFails env env.stdin 0 = true ∨ env.rename = false) :
    ∃ st, main env w = some (exit1 st) ∧ st.Cleaned w (hiddenName (env.now % 2 ^ 32) i) := by
  obtain ⟨-, hnone, -, -⟩ := search_spec env _ _ _ _ _ _ hs
  have hnone : w.mqueue.get (hiddenName (env.now % 2 ^ 32) i) = none := hnone
  have h3 := search_cases env _ _ _ _ _ _ hs
  have hfill : st3.Filling w (hiddenName (env.now % 2 ^ 32) i) := by
    rw [h3]
    refine ⟨rfl, ⟨[], rfl⟩, ?_, ?_⟩
    · intro s hs
      simp only [St.setW, St.log, searchStart, List.mem_append, List.mem_singleton,
        List.mem_cons, List.not_mem_nil, or_false] at hs
      rcases hs with hs | hs
      · exact Or.inl hs
      · exact Or.inr ⟨[], hs⟩
    · intro e he
      simp only [St.setW, St.log, searchStart, List.nil_append, List.mem_singleton] at he
      subst he
      rfl
  have hres := resolve_hidden_mqueue (env.now % 2 ^ 32) i
  have henq := enqueue_of_preamble env w hpre
  simp only [hs] at henq
  rcases copyStdin_filling env _ env.stdin 0 st3 w hfill hres hnone with
    ⟨-, st4, hc, hcl⟩ | ⟨hnf, st4, hc, hfl⟩
  · simp only [hc] at henq
    exact ⟨st4, by simp [main, henq], hcl⟩
  · have hr : env.rename = false := by
      rcases hfail with hf | hf
      · rw [hnf] at hf
        cases hf
      · exact hf
    simp only [hc, renameIn_fails env _ _ _ hr] at henq
    refine ⟨((st4.log Ev.close).log Ev.diag).unlink (hiddenName (env.now % 2 ^ 32) i),
      by simp [main, henq], ?_⟩
    exact unlink_filling _ w _ ((hfl.log Ev.close rfl).log Ev.diag rfl) hres hnone

/-! ## C13: a failed admission is atomic -/

/-- C13: when the hidden file `.mail.<timestamp>.<i>` was created and then a read
from standard input fails, a write stores less than its chunk, or the rename
fails, `main` exits with status 1 without a verdict: the world at exit is the
world before the run, so the hidden file is gone; in every state the run went
through the visible name `mail.<timestamp>.<i>` is absent and every other entry
of the queue directory is as before; the hidden file was unlinked; and the run
consists of file operations and diagnostics only, without probe, sleep, fork
or exec. -/
theorem failed_admission_is_atomic (env : Env) (w : World) (i : Nat) (st3 : St)
    (hpre : preamble env = true)
    (hs : search env (env.now % 2 ^ 32) (w.mqueue.length + 1) 0 (searchStart w)
      = Search.created i st3)
    (hfail : copyFails env env.stdin 0 = true ∨ env.rename = false) :
    main env w = some (outcomeOf env w) ∧
    (outcomeOf env w).status = 1 ∧ (outcomeOf env w).decision = none ∧
    (outcomeOf env w).child = none ∧
    (outcomeOf env w).st.w = w ∧
    (outcomeOf env w).st.w.mqueue.get (hiddenName (env.now % 2 ^ 32) i) = none ∧
    (∀ s ∈ (outcomeOf env w).st.snaps,
      s.mqueue.get (visibleName (env.now % 2 ^ 32) i) = none ∧
      ∀ n, n ≠ hiddenName (env.now % 2 ^ 32) i → s.mqueue.get n = w.mqueue.get n) ∧
    Ev.unlink (hiddenName (env.now % 2 ^ 32) i) ∈ (outcomeOf env w).st.trace ∧
    (∀ e ∈ (outcomeOf env w).st.trace, e.isAdmission = true) := by
  obtain ⟨st, hmain, hw, hsn, hun, htr⟩ := failed_admission_outcome env w i st3 hpre hs hfail
  obtain ⟨-, hnone, hvis, -⟩ := search_spec env _ _ _ _ _ _ hs
  have ho : outcomeOf env w = exit1 st := by simp [outcomeOf, hmain]
  rw [ho]
  refine ⟨hmain, rfl, rfl, rfl, hw, ?_, ?_, hun, htr⟩
  · simp only [exit1, hw]
    exact hnone
  · intro s hs1
    rcases hsn s hs1 with h | ⟨acc, h⟩
    · subst h
      exact ⟨hvis, fun _ _ => rfl⟩
    · subst h
      refine ⟨?_, ?_⟩
      · simp only
        rw [Dir.get_put_other _ _ _ _ (hidden_ne_visible _ _ _ _).symm]
        exact hvis
      · intro n hn
        simp only
        exact Dir.get_put_other _ _ _ _ hn

/-- C13 at a concrete run: one older message in the queue, the second read of
standard input fails. -/
theorem failed_admission_is_atomic_witness :
    (preamble readFailEnv = true ∧
      search readFailEnv (readFailEnv.now % 2 ^ 32) (backlogWorld.mqueue.length + 1) 0
          (searchStart backlogWorld)
        = Search.created 0 (createdState backlogWorld 1234567890 0) ∧
      (copyFails readFailEnv readFailEnv.stdin 0 = true ∨ readFailEnv.rename = false)) ∧
    ((outcomeOf readFailEnv backlogWorld).status = 1 ∧
      (outcomeOf readFailEnv backlogWorld).st.w = backlogWorld) :=
  ⟨⟨rfl, rfl, Or.inl rfl⟩,
    (failed_admission_is_atomic readFailEnv backlogWorld 0
      (createdState backlogWorld 1234567890 0) rfl rfl (Or.inl rfl)).2.1,
    (failed_admission_is_atomic readFailEnv backlogWorld 0
      (createdState backlogWorld 1234567890 0) rfl rfl (Or.inl rfl)).2.2.2.2.1⟩

/-! ## The admission does not look at the home directory -/

/-- Logging an event commutes with the change of the home directory. -/
theorem St.withHome_log (st : St) (h : Dir) (e : Ev) :
    (st.log e).withHome h = (st.withHome h).log e := rfl

/-- Replacing the world commutes with the change of the home directory. -/
theorem St.withHome_setW (st : St) (h : Dir) (w : World) :
    (st.setW w).withHome h = (st.withHome h).setW (w.withHome h) := by
  simp [St.setW, St.withHome]

/-- The exclusive create in the queue directory does not look at the home directory. -/
theorem openExcl_withHome (env : Env) (st : St) (h : Dir) (name : Bytes) (i : Nat) :
    openExcl env (st.withHome h) name i =
      match openExcl env st name i with
      | OpenRes.ok s => OpenRes.ok (s.withHome h)
      | OpenRes.eexist => OpenRes.eexist
      | OpenRes.error => OpenRes.error := by
  unfold openExcl
  have e1 : (st.withHome h).w.mqueue = st.w.mqueue := rfl
  rw [e1]
  cases hg : st.w.mqueue.get name with
  | some c => rfl
  | none =>
    by_cases hc : env.createErr i = true
    · simp [hc]
    · simp only [hc, if_false, Bool.false_eq_true]
      simp [St.setW, St.withHome, St.log, World.withHome]

/-- The name search does not look at the home directory. -/
theorem search_withHome (env : Env) (ts fuel i : Nat) (st : St) (h : Dir) :
    search env ts fuel i (st.withHome h) =
      match search env ts fuel i st with
      | Search.created n s => Search.created n (s.withHome h)
      | Search.failed n s => Search.failed n (s.withHome h)
      | Search.diverged => Search.diverged := by
  induction fuel generalizing i with
  | zero => rfl
  | succ f ih =>
    rw [search, search]
    have e1 : (st.withHome h).w.stat Cwd.mqueue (visibleName ts i)
        = st.w.stat Cwd.mqueue (visibleName ts i) := by
      simp [stat_visible, St.withHome, World.withHome]
    rw [e1]
    by_cases hs : (st.w.stat Cwd.mqueue (visibleName ts i)).isSome = true
    · simp only [hs, if_true]
      exact ih _
    · simp only [hs, if_false, Bool.false_eq_true]
      rw [openExcl_withHome]
      cases ho : openExcl env st (hiddenName ts i) i with
      | ok s => rfl
      | eexist => exact ih _
      | error => rfl

/-- Writing a chunk does not look at the home directory. -/
theorem writeChunk_withHome (env : Env) (k : Nat) (name c : Bytes) (st : St) (h : Dir) :
    writeChunk env k name c (st.withHome h)
      = ((writeChunk env k name c st).1, (writeChunk env k name c st).2.withHome h) := by
  simp [writeChunk, St.setW, St.withHome, St.log, World.withHome]

/-- Writing a chunk leaves the working directory. -/
theorem writeChunk_cwd (env : Env) (k : Nat) (name c : Bytes) (st : St) :
    (writeChunk env k name c st).2.cwd = st.cwd := rfl

/-- An `unlink` made in the queue directory does not look at the home directory. -/
theorem unlink_withHome (st : St) (h : Dir) (path : Bytes) (hcwd : st.cwd = Cwd.mqueue) :
    (st.withHome h).unlink path = (st.unlink path).withHome h := by
  have hw : (st.w.withHome h).unlink Cwd.mqueue path
      = (st.w.unlink Cwd.mqueue path).withHome h := by
    unfold World.unlink resolve
    by_cases hp : mqueueSlash.isPrefixOf path = true
    · simp [hp]
    · simp [hp, World.setDir, World.dir, World.withHome]
  simp only [St.unlink, St.setW, St.log, St.withHome, hcwd, hw, List.map_append, List.map_cons,
    List.map_nil]

/-- The copy loop does not look at the home directory. -/
theorem copyStdin_withHome (env : Env) (name : Bytes) (rs : List ReadRes) (k : Nat) (st : St)
    (h : Dir) (hcwd : st.cwd = Cwd.mqueue) :
    copyStdin env name rs k (st.withHome h) =
      match copyStdin env name rs k st with
      | Except.ok s => Except.ok (s.withHome h)
      | Except.error s => Except.error (s.withHome h) := by
  induction rs generalizing k st with
  | nil => rfl
  | cons r rest ih =>
    cases r with
    | fail =>
      simp only [copyStdin]
      rw [← St.withHome_log, ← St.withHome_log, unlink_withHome _ _ _ (by simpa [St.log] using hcwd)]
    | data c =>
      rw [copyStdin, copyStdin]
      by_cases hc : c.length = 0
      · simp [hc]
      · simp only [hc, if_false]
        rw [writeChunk_withHome]
        by_cases hfull : (writeChunk env k name c st).1 = c.length
        · simp only [hfull, ne_eq, not_true_eq_false, if_false]
          exact ih _ _ (by rw [writeChunk_cwd]; exact hcwd)
        · simp only [ne_eq, hfull, not_false_eq_true, if_true]
          rw [← St.withHome_log, ← St.withHome_log,
            unlink_withHome _ _ _ (by simpa [St.log, writeChunk_cwd] using hcwd)]

/-- A completed copy loop leaves the working directory. -/
theorem copyStdin_cwd (env : Env) (name : Bytes) (rs : List ReadRes) (k : Nat) (st st1 : St)
    (h : copyStdin env name rs k st = Except.ok st1) : st1.cwd = st.cwd := by
  induction rs generalizing k st with
  | nil =>
    simp only [copyStdin, Except.ok.injEq] at h
    rw [h]
  | cons r rest ih =>
    cases r with
    | fail => simp [copyStdin] at h
    | data c =>
      rw [copyStdin] at h
      split at h
      · simp only [Except.ok.injEq] at h
        rw [h]
      · dsimp only at h
        split at h
        · simp at h
        · exact (ih _ _ h).trans (writeChunk_cwd env k name c st)

/-- The rename in the queue directory does not look at the home directory. -/
theorem renameIn_withHome (env : Env) (st : St) (h : Dir) (old new : Bytes) :
    renameIn env (st.withHome h) old new = (renameIn env st old new).map (fun s => s.withHome h) := by
  unfold renameIn
  have e1 : (st.withHome h).w.mqueue = st.w.mqueue := rfl
  rw [e1]
  cases hg : st.w.mqueue.get old with
  | none => rfl
  | some c =>
    by_cases hr : env.rename = true
    · simp [hr, St.setW, St.withHome, St.log, World.withHome]
    · simp [hr]

/-- The admission does not look at the home directory: started from a world with
another home directory it goes through the same steps. -/
theorem enqueue_withHome (env : Env) (w : World) (h : Dir) :
    enqueue env (w.withHome h) =
      match enqueue env w with
      | Except.ok a => Except.ok { a with st := a.st.withHome h }
      | Except.error none => Except.error none
      | Except.error (some o) => Except.error (some (o.withHome h)) := by
  cases hp : preamble env with
  | false =>
    unfold preamble at hp
    unfold enqueue
    cases hh : env.HOME with
    | none => rfl
    | some home =>
      simp only [hh] at hp
      by_cases h1 : home = []
      · simp only [h1, if_true]
        rfl
      · by_cases h2 : env.chdirHome = true
        · by_cases h3 : env.chdirQueue = true
          · by_cases h4 : env.opendir = true
            · simp [h1, h2, h3, h4] at hp
            · simp only [h1, h2, h3, h4, if_false, Bool.not_true, Bool.false_eq_true,
                Bool.not_false, if_true]
              rfl
          · simp only [h1, h2, h3, if_false, Bool.not_true, Bool.false_eq_true,
              Bool.not_false, if_true]
            rfl
        · simp only [h1, h2, if_false, Bool.not_false, if_true]
          rfl
  | true =>
    rw [enqueue_of_preamble env w hp, enqueue_of_preamble env (w.withHome h) hp]
    have e0 : searchStart (w.withHome h) = (searchStart w).withHome h := rfl
    have e1 : (w.withHome h).mqueue = w.mqueue := rfl
    have e2 : readdir (w.withHome h) = readdir w := rfl
    rw [e0, e1, e2, search_withHome]
    cases hs : search env (env.now % 2 ^ 32) (w.mqueue.length + 1) 0 (searchStart w) with
    | diverged => rfl
    | failed n s => rfl
    | created n s =>
      have hcwd : s.cwd = Cwd.mqueue := by
        rw [search_cases env _ _ _ _ _ _ hs]
        rfl
      simp only
      rw [copyStdin_withHome _ _ _ _ _ _ hcwd]
      cases hc : copyStdin env (hiddenName (env.now % 2 ^ 32) n) env.stdin 0 s with
      | error s4 => rfl
      | ok s4 =>
        have hcwd4 : s4.cwd = Cwd.mqueue := (copyStdin_cwd _ _ _ _ _ _ hc).trans hcwd
        simp only
        rw [← St.withHome_log, renameIn_withHome]
        cases hr : renameIn env (s4.log Ev.close) (hiddenName (env.now % 2 ^ 32) n)
            (visibleName (env.now % 2 ^ 32) n) with
        | none =>
          simp only [Option.map_none']
          rw [← St.withHome_log, unlink_withHome _ _ _ (by simpa [St.log] using hcwd4)]
          rfl
        | some s6 => rfl

/-! ## The activation logic depends on the world and the working directory only -/

/-- In states with the same world and working directory `unlink` has the same effect. -/
theorem unlink_place (s t : St) (path : Bytes) (h : s.place = t.place) :
    (s.unlink path).place = (t.unlink path).place := by
  simp only [St.place, Prod.mk.injEq] at h
  simp [St.place, St.unlink, St.setW, St.log, h.1, h.2]

/-- Logging an event changes neither the world nor the working directory. -/
theorem log_place (s : St) (e : Ev) : (s.log e).place = s.place := rfl

/-- The liveness probe depends on the state only through the world and the working
directory. -/
theorem probe_place (env : Env) (k : Nat) (s t : St) (h : s.place = t.place) :
    placeOf (probe env k s) = placeOf (probe env k t) := by
  have hw : s.w = t.w := congrArg Prod.fst h
  have hc : s.cwd = t.cwd := congrArg Prod.snd h
  unfold probe
  rw [hw, hc]
  cases hs : t.w.stat t.cwd markerName with
  | none => simp [placeOf, h]
  | some size =>
    simp only
    unfold check_mailer_running
    rw [hw, hc]
    cases ho : (if env.markerOpen k = true then t.w.content t.cwd markerName else none) with
    | none => simp [placeOf, log_place, h]
    | some content =>
      simp only
      by_cases hr : env.markerRead k = true
      · simp only [hr, Bool.not_true, Bool.false_eq_true, if_false]
        have e1 : (s.log (Ev.kill (atoi (readInto (env.stale k) content
            (sizeToRead (toInt32 size)))))).w.procs = t.w.procs := by
          simp [St.log, hw]
        have e2 : (t.log (Ev.kill (atoi (readInto (env.stale k) content
            (sizeToRead (toInt32 size)))))).w.procs = t.w.procs := rfl
        rw [e1, e2]
        by_cases hk : kill t.w.procs (atoi (readInto (env.stale k) content
            (sizeToRead (toInt32 size)))) = KillRes.ESRCH
        · simp only [hk, if_true]
          rw [if_neg (by decide), if_neg (by decide)]
          simp only [placeOf]
          rw [unlink_place _ _ _ ((log_place s _).trans (h.trans (log_place t _).symm))]
        · simp only [hk, if_false]
          rw [if_pos trivial, if_pos trivial]
          simp [placeOf, log_place, h]
      · simp [hr, placeOf, log_place, h]

/-- The wait has the same effect on the world in states with the same world and working directory. -/
theorem backoff_place (env : Env) (s t : St) (h : s.place = t.place) :
    (backoff env s).place = (backoff env t).place := by
  simp only [St.place, Prod.mk.injEq] at h
  simp [St.place, backoff, St.setW, St.log, h.1, h.2]

/-- The launcher depends on the state only through the world and the working
directory. -/
theorem launch_result (env : Env) (long : Bytes) (s t : St) (h : s.place = t.place) :
    (launch env long s).result = (launch env long t).result := by
  simp only [St.place, Prod.mk.injEq] at h
  unfold launch
  by_cases h1 : env.setreuid = true <;> cases h2 : daemonPath env.argv0 <;>
    by_cases h3 : env.fork = true <;> by_cases h4 : env.execv = true <;>
    simp [h1, h3, h4, Outcome.result, Outcome.verdict, St.unlink, St.setW, St.log, h.1, h.2]

/-- After a first probe that answered NotRunning the activation logic is
`recheck`. -/
theorem activate_notRunning (env : Env) (a : Admitted) (st st1 : St)
    (h : probe env 0 st = Except.ok (Liveness.notRunning, st1)) :
    activate env a st = recheck env a st1 := by
  simp [activate, recheck, h]

/-- What follows the first probe depends on the state only through the world and
the working directory, and on the admitted message only through its name and
`dir_was_empty`. -/
theorem recheck_result (env : Env) (a b : Admitted) (s1 t1 : St) (hpl : s1.place = t1.place)
    (h1 : a.dir_was_empty = b.dir_was_empty) (h2 : a.ts = b.ts) (h3 : a.i = b.i) :
    (recheck env a s1).result = (recheck env b t1).result := by
  unfold recheck
  rw [h1, h2, h3]
  by_cases hde : b.dir_was_empty = true
  · simp only [hde, Bool.not_true, Bool.false_eq_true, if_false]
    exact launch_result env _ s1 t1 hpl
  · simp only [hde, Bool.not_false, if_true]
    have hb := backoff_place env s1 t1 hpl
    have hp1 := probe_place env 1 _ _ hb
    cases qs : probe env 1 (backoff env s1) with
    | error s4 =>
      cases qt : probe env 1 (backoff env t1) with
      | error t4 =>
        rw [qs, qt] at hp1
        simp only [placeOf, Except.error.injEq] at hp1
        have hw4 : s4.w = t4.w := congrArg Prod.fst hp1
        simp [exit1, Outcome.result, Outcome.verdict, hw4]
      | ok r => rw [qs, qt] at hp1; simp [placeOf] at hp1
    | ok r4 =>
      cases qt : probe env 1 (backoff env t1) with
      | error t4 => rw [qs, qt] at hp1; simp [placeOf] at hp1
      | ok r4' =>
        obtain ⟨l4, s4⟩ := r4
        obtain ⟨l4', t4⟩ := r4'
        rw [qs, qt] at hp1
        simp only [placeOf, Except.ok.injEq, Prod.mk.injEq] at hp1
        obtain ⟨hl4, hpl4⟩ := hp1
        subst hl4
        have hw4 : s4.w = t4.w := congrArg Prod.fst hpl4
        have hc4 : s4.cwd = t4.cwd := congrArg Prod.snd hpl4
        cases l4 with
        | running => simp [skip, Outcome.result, Outcome.verdict, hw4]
        | notRunning =>
          simp only [hw4, hc4]
          by_cases hst : (t4.w.stat t4.cwd (longName b.ts b.i)).isNone = true
          · simp [hst, skip, Outcome.result, Outcome.verdict, hw4]
          · simp only [hst, if_false, Bool.false_eq_true]
            exact launch_result env _ s4 t4 hpl4

/-! ## C14: a marker of a dead process against no marker -/

/-- C14, as amended: two worlds differ only in that the first has a marker file
and the second has none, and everything else of the two runs is the same.  When
in the first run the marker is opened and read and `kill` reports `ESRCH` for the
number parsed from it, the two runs end with the same exit status, the same
verdict and the same exit status of the child; and when the admission and the
`chdir( ".." )` succeed, so that the probe is made, they also leave the same
world, and the first probe of the first run has deleted the marker. -/
theorem pruned_marker_runs_as_no_marker (env : Env) (w : World) (text : Bytes)
    (hno : w.home.get markerName = none)
    (hopen : env.markerOpen 0 = true) (hread : env.markerRead 0 = true)
    (hdead : kill w.procs (probedPid env 0 text) = KillRes.ESRCH) :
    (main env (w.withMarker text)).map Outcome.verdict = (main env w).map Outcome.verdict ∧
    (∀ a, enqueue env w = Except.ok a → env.chdirUp = true →
      (main env (w.withMarker text)).map Outcome.result = (main env w).map Outcome.result ∧
      (probed env 0 { (admitted env (w.withMarker text)).st with cwd := Cwd.home }).w.home.get
        markerName = none) := by
  have hsim := enqueue_withHome env w (w.home.put markerName text)
  cases he : enqueue env w with
  | error r =>
    rw [he] at hsim
    cases r with
    | none =>
      simp only at hsim
      refine ⟨?_, fun a ha => by simp at ha⟩
      simp [main, World.withMarker, hsim, he]
    | some o =>
      simp only at hsim
      refine ⟨?_, fun a ha => by simp at ha⟩
      simp [main, World.withMarker, hsim, he, Outcome.verdict, Outcome.withHome]
  | ok a =>
    rw [he] at hsim
    simp only at hsim
    have hw := enqueue_writing env w a he
    by_cases hup : env.chdirUp = true
    · -- the first probe of each run
      have hs2 : probe env 0 { a.st with cwd := Cwd.home }
          = Except.ok (Liveness.notRunning, { a.st with cwd := Cwd.home }) := by
        simp [probe, World.stat, resolve_marker_home, World.dir, hw.1, hno]
      have hpruned := stale_marker_pruned env 0
        { (a.st.withHome (w.home.put markerName text)) with cwd := Cwd.home } text rfl
        (by simp [St.withHome, World.withHome, Dir.get_put_same]) hopen hread
        (by
          have : (a.st.withHome (w.home.put markerName text)).w.procs = w.procs := hw.2.1
          simpa [this] using hdead)
      obtain ⟨hs1, hgone, -⟩ := hpruned
      have hplace : St.place ((({ (a.st.withHome (w.home.put markerName text)) with
            cwd := Cwd.home } : St).log (Ev.kill (probedPid env 0 text))).unlink markerName)
          = St.place { a.st with cwd := Cwd.home } := by
        simp only [St.place, St.unlink, St.setW, St.log, St.withHome, World.withHome,
          World.unlink, resolve_marker_home, World.setDir, World.dir, Prod.mk.injEq, and_true]
        rw [Dir.del_put _ _ _ hno, ← hw.1]
      have hres : (activate env { a with st := a.st.withHome (w.home.put markerName text) }
            { (a.st.withHome (w.home.put markerName text)) with cwd := Cwd.home }).result
          = (activate env a { a.st with cwd := Cwd.home }).result := by
        rw [activate_notRunning env _ _ _ hs1, activate_notRunning env _ _ _ hs2]
        exact recheck_result env _ _ _ _ hplace rfl rfl rfl
      have hm1 : main env (w.withMarker text)
          = some (activate env { a with st := a.st.withHome (w.home.put markerName text) }
              { (a.st.withHome (w.home.put markerName text)) with cwd := Cwd.home }) := by
        simp [main, World.withMarker, hsim, hup]
      have hm2 : main env w = some (activate env a { a.st with cwd := Cwd.home }) := by
        simp [main, he, hup]
      refine ⟨?_, fun a' ha' _ => ⟨?_, ?_⟩⟩
      · rw [hm1, hm2]
        simp only [Option.map_some', Option.some.injEq]
        exact congrArg Prod.fst hres
      · rw [hm1, hm2]
        simp only [Option.map_some', Option.some.injEq]
        exact hres
      · have hadm : admitted env (w.withMarker text)
            = { a with st := a.st.withHome (w.home.put markerName text) } := by
          simp [admitted, World.withMarker, hsim]
        rw [hadm]
        simp only [probed, hs1]
        exact hgone
    · have hup1 : env.chdirUp = false := by simpa using hup
      refine ⟨?_, fun a' _ h => by rw [hup1] at h; cases h⟩
      simp [main, World.withMarker, hsim, he, hup1, Outcome.verdict, exit1]

/-- The amended C14 at a concrete run: `helloEnv` on a queue with one older message,
with and without a marker holding `999999999`; the admission and the
`chdir( ".." )` succeed there, so the probe is made. -/
theorem pruned_marker_runs_as_no_marker_witness :
    backlogWorld.home.get markerName = none ∧
    helloEnv.markerOpen 0 = true ∧ helloEnv.markerRead 0 = true ∧
    kill backlogWorld.procs (probedPid helloEnv 0 deadPidText) = KillRes.ESRCH ∧
    enqueue helloEnv backlogWorld = Except.ok (admitted helloEnv backlogWorld) ∧
    helloEnv.chdirUp = true ∧
    ((main helloEnv (backlogWorld.withMarker deadPidText)).map Outcome.verdict
        = (main helloEnv backlogWorld).map Outcome.verdict ∧
      (∀ a, enqueue helloEnv backlogWorld = Except.ok a → helloEnv.chdirUp = true →
        (main helloEnv (backlogWorld.withMarker deadPidText)).map Outcome.result
          = (main helloEnv backlogWorld).map Outcome.result ∧
        (probed helloEnv 0
          { (admitted helloEnv (backlogWorld.withMarker deadPidText)).st with
            cwd := Cwd.home }).w.home.get markerName = none)) :=
  ⟨rfl, rfl, rfl, rfl, rfl, rfl,
    pruned_marker_runs_as_no_marker helloEnv backlogWorld deadPidText rfl rfl rfl rfl⟩

/-- C14 as stated fails: no process has the number `999999999`, and the two
worlds of each pair differ only in the marker holding it.  When the marker cannot
be opened, the run with the marker exits with status 1 without a verdict while the
run without a marker starts the daemon and returns 0; and when the read from
standard input fails, both runs exit with status 1 before any probe and the
marker of the first run is still there. -/
theorem dead_pid_marker_changes_the_run :
    kill someProcs (atoi deadPidText) = KillRes.ESRCH ∧
    (emptyWorld.withMarker deadPidText).mqueue = emptyWorld.mqueue ∧
    (emptyWorld.withMarker deadPidText).procs = emptyWorld.procs ∧
    (emptyWorld.withMarker deadPidText).home = [(markerName, deadPidText)] ∧
    emptyWorld.home = [] ∧
    (main unreadableEnv (emptyWorld.withMarker deadPidText)).map Outcome.verdict
      = some (1, none, none) ∧
    (main unreadableEnv emptyWorld).map Outcome.verdict
      = some (0, some Decision.spawn, none) ∧
    (main unreadableEnv (emptyWorld.withMarker deadPidText)).map
      (fun o => o.st.w.home.get markerName) = some (some deadPidText) ∧
    (main readFailEnv (backlogWorld.withMarker deadPidText)).map
      (fun o => (o.verdict, o.st.w.home.get markerName))
      = some ((1, none, none), some deadPidText) ∧
    (main readFailEnv backlogWorld).map
      (fun o => (o.verdict, o.st.w.home.get markerName))
      = some ((1, none, none), none) :=
  ⟨rfl, rfl, rfl, rfl, rfl, rfl, rfl, rfl, rfl, rfl⟩

/-! ## Where the name search ends -/

/-- The search started at `i`, below a free disambiguator `n` up to which every
disambiguator is taken, ends at `n`: with the created file, or with the error of
the exclusive create. -/
theorem search_reaches (env : Env) (ts : Nat) (st : St) (n fuel i : Nat) (hin : i ≤ n)
    (hfuel : n - i < fuel) (hfree : ¬ taken st.w.mqueue ts n)
    (hbelow : ∀ j, i ≤ j → j < n → taken st.w.mqueue ts j) :
    search env ts fuel i st =
      if env.createErr n then Search.failed n st
      else Search.created n ((st.log (Ev.create (hiddenName ts n))).setW
        { st.w with mqueue := st.w.mqueue.put (hiddenName ts n) [] }) := by
  induction fuel generalizing i with
  | zero => omega
  | succ f ih =>
    rw [search]
    by_cases hi : i = n
    · subst hi
      have hv : st.w.mqueue.get (visibleName ts i) = none := by
        cases h : st.w.mqueue.get (visibleName ts i) with
        | none => rfl
        | some c => exact absurd (Or.inl (by simp [h])) hfree
      have hh : st.w.mqueue.get (hiddenName ts i) = none := by
        cases h : st.w.mqueue.get (hiddenName ts i) with
        | none => rfl
        | some c => exact absurd (Or.inr (by simp [h])) hfree
      simp only [stat_visible, hv, Option.map_none', Option.isSome_none, Bool.false_eq_true,
        if_false, openExcl, hh]
      by_cases hc : env.createErr i = true
      · simp [hc]
      · simp [hc]
    · have hlt : i < n := by omega
      have hrec := ih (i + 1) (by omega) (by omega) (fun j h1 h2 => hbelow j (by omega) h2)
      rcases hbelow i (le_refl i) hlt with hv | hh
      · simp only [stat_visible, Option.isSome_map', hv, if_true]
        exact hrec
      · by_cases hv : (st.w.mqueue.get (visibleName ts i)).isSome = true
        · simp only [stat_visible, Option.isSome_map', hv, if_true]
          exact hrec
        · simp only [stat_visible, Option.isSome_map', hv, if_false]
          obtain ⟨c, hc⟩ := Option.isSome_iff_exists.mp hh
          simp only [openExcl, hc]
          exact hrec

/-- Among the disambiguators `0..n` of a directory with `n` entries there is a
least one that is free. -/
theorem exists_least_free (q : Dir) (ts : Nat) :
    ∃ n, n ≤ q.length ∧ ¬ taken q ts n ∧ ∀ j, j < n → taken q ts j := by
  classical
  have hex : ∃ n, ¬ taken q ts n := by
    by_contra hno
    push_neg at hno
    exact not_all_taken q ts (fun j _ => hno j)
  refine ⟨Nat.find hex, ?_, Nat.find_spec hex, ?_⟩
  · by_contra hgt
    apply not_all_taken q ts
    intro j hj
    by_contra hjt
    have := Nat.find_min' hex hjt
    omega
  · intro j hj
    by_contra hjt
    have := Nat.find_min' hex hjt
    omega

/-! ## C15: the name search ends at the least free disambiguator -/

/-- C15: the name search on a queue directory of `len` entries terminates: for
every fuel above `len` it ends, with the same result, at the least disambiguator
`n` for which neither `mail.<timestamp>.<n>` nor `.mail.<timestamp>.<n>` exists
(every smaller one has one of the two forms on disk): with the exclusively created
hidden file, or, when the exclusive create fails there for a reason other than
`EEXIST`, with a failure at `n` after which `main` prints a diagnostic and exits
with status 1 without having changed the world. -/
theorem name_search_ends_at_least_free (env : Env) (w : World) (fuel : Nat)
    (hfuel : w.mqueue.length + 1 ≤ fuel) :
    ∃ n, n ≤ w.mqueue.length ∧
      ¬ taken w.mqueue (env.now % 2 ^ 32) n ∧
      (∀ j, j < n → taken w.mqueue (env.now % 2 ^ 32) j) ∧
      search env (env.now % 2 ^ 32) fuel 0 (searchStart w)
        = (if env.createErr n then Search.failed n (searchStart w)
           else Search.created n (createdState w (env.now % 2 ^ 32) n)) ∧
      (env.createErr n = true → preamble env = true →
        main env w = some (fatal (searchStart w)) ∧ (fatal (searchStart w)).status = 1 ∧
        (fatal (searchStart w)).st.w = w) := by
  obtain ⟨n, hle, hfree, hbelow⟩ := exists_least_free w.mqueue (env.now % 2 ^ 32)
  have hsearch : ∀ f, w.mqueue.length + 1 ≤ f →
      search env (env.now % 2 ^ 32) f 0 (searchStart w)
        = (if env.createErr n then Search.failed n (searchStart w)
           else Search.created n (createdState w (env.now % 2 ^ 32) n)) := by
    intro f hf
    exact search_reaches env _ (searchStart w) n f 0 (Nat.zero_le n) (by omega) hfree
      (fun j _ h2 => hbelow j h2)
  refine ⟨n, hle, hfree, hbelow, hsearch fuel hfuel, ?_⟩
  intro hc hpre
  refine ⟨?_, rfl, rfl⟩
  have henq := enqueue_of_preamble env w hpre
  rw [hsearch _ (le_refl _)] at henq
  simp only [hc, if_true] at henq
  simp [main, henq]

/-- C15 at a concrete directory: two entries, fuel 3. -/
theorem name_search_ends_at_least_free_witness :
    (twoTakenWorld.mqueue.length + 1 ≤ 3) ∧
    ∃ n, n ≤ twoTakenWorld.mqueue.length ∧
      ¬ taken twoTakenWorld.mqueue (helloEnv.now % 2 ^ 32) n ∧
      (∀ j, j < n → taken twoTakenWorld.mqueue (helloEnv.now % 2 ^ 32) j) ∧
      search helloEnv (helloEnv.now % 2 ^ 32) 3 0 (searchStart twoTakenWorld)
        = (if helloEnv.createErr n then Search.failed n (searchStart twoTakenWorld)
           else Search.created n (createdState twoTakenWorld (helloEnv.now % 2 ^ 32) n)) ∧
      (helloEnv.createErr n = true → preamble helloEnv = true →
        main helloEnv twoTakenWorld = some (fatal (searchStart twoTakenWorld)) ∧
        (fatal (searchStart twoTakenWorld)).status = 1 ∧
        (fatal (searchStart twoTakenWorld)).st.w = twoTakenWorld) :=
  ⟨by decide, name_search_ends_at_least_free helloEnv twoTakenWorld 3 (by decide)⟩

end BuilddMailWrapper
